import Mathlib

/-!
Shallow embedding of the Eagle schematic import engine
(`SCH_EAGLE_PLUGIN`, file `src/common/gal/opengl/opengl_compositor.cpp`)
and proofs about its label synthesis, label correction, bus-entry
synthesis, alignment transform, instance loading and coordinate
conventions.

Machine integers: all coordinates fit comfortably in 32/64-bit ints in
the source, so they are modelled as unbounded `Int`; the one place the
source does bit-level arithmetic (`^` in `findNearestLinePoint`) is
modelled with an explicit two's-complement XOR.
-/

/-- Integer point, the model of `wxPoint` / `VECTOR2I`. -/
structure Pt where
  x : Int
  y : Int
deriving DecidableEq, Repr

/-- Integer segment, the model of `SEG` (endpoints `A`, `B`). -/
structure Seg where
  a : Pt
  b : Pt
deriving DecidableEq, Repr

/-- Modelled from the spec: the geometric containment test
(`SEG::Contains` / `TestSegmentHit` with zero tolerance) lives in the
geometry library outside the given sources; the spec describes the
geometric primitives as "value types with intersection and containment
tests", so the test is modelled as exact integer point-on-segment:
collinearity plus bounding-box membership. -/
def onSeg (p : Pt) (s : Seg) : Bool :=
  decide ((s.b.x - s.a.x) * (p.y - s.a.y) = (s.b.y - s.a.y) * (p.x - s.a.x)) &&
  decide (min s.a.x s.b.x ≤ p.x) && decide (p.x ≤ max s.a.x s.b.x) &&
  decide (min s.a.y s.b.y ≤ p.y) && decide (p.y ≤ max s.a.y s.b.y)

/-! ### Eagle text alignment (`eagleToKicadAlignment`, lines 1613-1712)

Modelled from the spec: the nine `ETEXT` alignment constants are declared
in the Eagle parser header outside the given sources; the spec describes
a nine-member eight-way-plus-center justification enumeration whose
opposite corners are negations of one another (the transform's
180-degree branch is `align = -align`), which fixes the constants below. -/

namespace ETEXT

def CENTER : Int := 0
def CENTER_LEFT : Int := 1
def TOP_CENTER : Int := 2
def TOP_LEFT : Int := 3
def TOP_RIGHT : Int := 4
def CENTER_RIGHT : Int := -1
def BOTTOM_CENTER : Int := -2
def BOTTOM_RIGHT : Int := -3
def BOTTOM_LEFT : Int := -4

end ETEXT

/-- The nine-member Eagle text alignment enumeration. -/
def alignEnum : List Int :=
  [ETEXT.CENTER, ETEXT.CENTER_LEFT, ETEXT.TOP_CENTER, ETEXT.TOP_LEFT,
   ETEXT.TOP_RIGHT, ETEXT.CENTER_RIGHT, ETEXT.BOTTOM_CENTER,
   ETEXT.BOTTOM_RIGHT, ETEXT.BOTTOM_LEFT]

/-- The mirror step of `eagleToKicadAlignment` (the `if( aMirror == true )`
block, lines 1630-1658): a fixed permutation of the alignment value
keyed on the absolute rotation angle. -/
def mirrorAlign (absDegrees : Int) (align : Int) : Int :=
  if absDegrees = 90 ∨ absDegrees = 270 then
    if align = ETEXT.BOTTOM_RIGHT then ETEXT.TOP_RIGHT
    else if align = ETEXT.BOTTOM_LEFT then ETEXT.TOP_LEFT
    else if align = ETEXT.TOP_LEFT then ETEXT.BOTTOM_LEFT
    else if align = ETEXT.TOP_RIGHT then ETEXT.BOTTOM_RIGHT
    else align
  else if absDegrees = 0 ∨ absDegrees = 180 then
    if align = ETEXT.BOTTOM_RIGHT then ETEXT.BOTTOM_LEFT
    else if align = ETEXT.BOTTOM_LEFT then ETEXT.BOTTOM_RIGHT
    else if align = ETEXT.TOP_LEFT then ETEXT.TOP_RIGHT
    else if align = ETEXT.TOP_RIGHT then ETEXT.TOP_LEFT
    else if align = ETEXT.CENTER_LEFT then ETEXT.CENTER_RIGHT
    else if align = ETEXT.CENTER_RIGHT then ETEXT.CENTER_LEFT
    else align
  else align

/-! ### Nearest-candidate search (`findNearestLinePoint`, lines 2464-2507)

The source computes, for each candidate point (segment start, center and
end, in that order), `d = sqrt( abs( ((dx) ^ 2) + ((dy) ^ 2) ) )` where
`^` is C++ bitwise XOR on two's-complement ints — not exponentiation —
and keeps the candidate with strictly smaller `d`.  Since `sqrt` is
strictly monotone on nonnegative reals, the comparisons are modelled on
the pre-`sqrt` value `|((dx XOR 2) + (dy XOR 2))|` as a natural
number. -/

/-- Two's-complement `z XOR 2` for an unbounded integer, the semantics
of the C++ expression `z ^ 2` on a negative or nonnegative int. -/
def cxxXorTwo (z : Int) : Int :=
  if 0 ≤ z then ((z.toNat ^^^ 2 : Nat) : Int)
  else -(((-z - 1).toNat ^^^ 2 : Nat) : Int) - 1

/-- The comparison value the source derives for a candidate point `q`
against the query point `p` (XOR in place of squaring, then `abs`;
the final `sqrt` is strictly monotone and is dropped). -/
def codeDistance (p q : Pt) : Nat :=
  (cxxXorTwo (p.x - q.x) + cxxXorTwo (p.y - q.y)).natAbs

/-- `SEG::Center`: `A + ( B - A ) / 2` with C++ truncating division. -/
def segCenter (s : Seg) : Pt :=
  ⟨s.a.x + Int.tdiv (s.b.x - s.a.x) 2, s.a.y + Int.tdiv (s.b.y - s.a.y) 2⟩

/-- One `if( d < mindistance )` update step of `findNearestLinePoint`:
candidate `q` of segment index `i` against current best. -/
def considerCandidate (p q : Pt) (i : Nat) (st : Option (Nat × Pt × Nat)) :
    Option (Nat × Pt × Nat) :=
  let d := codeDistance p q
  match st with
  | none => some (d, q, i)
  | some (m, q0, i0) => if d < m then some (d, q, i) else some (m, q0, i0)

/-- `SCH_EAGLE_PLUGIN::findNearestLinePoint` (lines 2464-2507): for each
segment, tries start, center and end in order, keeping the candidate of
strictly smallest `codeDistance`; returns the winning point together
with the index of its segment (`none` for an empty list, where the
source returns a null segment pointer). -/
def findNearestLinePoint (p : Pt) (lines : List Seg) : Option (Pt × Nat) :=
  let final := lines.enum.foldl
    (fun st (is : Nat × Seg) =>
      considerCandidate p is.2.b is.1
        (considerCandidate p (segCenter is.2) is.1
          (considerCandidate p is.2.a is.1 st)))
    none
  final.map (fun r => (r.2.1, r.2.2))

/-- Squared Euclidean distance, the metric the spec's nearest-point
search is stated in. -/
def sqDist (p q : Pt) : Int :=
  (p.x - q.x) * (p.x - q.x) + (p.y - q.y) * (p.y - q.y)

/-- The candidate set of the nearest-point search: start, center and end
of every segment in the list. -/
def candidatePoints (lines : List Seg) : List Pt :=
  lines.flatMap (fun s => [s.a, segCenter s, s.b])

/-! ### Net label synthesis (`loadSegments`, lines 2261-2378) -/

/-- Modelled from the spec: `escapeName` is one of the "general
string-escaping utilities" the spec places out of scope; modelled as the
identity placeholder for that external function. -/
def escapeName (s : String) : String := s

/-- A child element of one Eagle `segment` node, as consumed by
`loadSegments`. -/
inductive SegChild where
  | wire (s : Seg)
  | label (pos : Pt) (text : String)
  | junction (p : Pt)
  | pinref
deriving DecidableEq, Repr

/-- Kind of a synthesized net label. -/
inductive LabelKind where
  | globalLabel
  | localLabel
deriving DecidableEq, Repr

/-- A synthesized net label. -/
structure SynthLabel where
  kind : LabelKind
  pos : Pt
  text : String
deriving DecidableEq, Repr

/-- The `firstWire` pointer of `loadSegments`: first `wire` child of the
segment group. -/
def firstWire (cs : List SegChild) : Option Seg :=
  match cs with
  | [] => none
  | SegChild.wire s :: _ => some s
  | _ :: rest => firstWire rest

/-- The `labelled` flag of `loadSegments`: set when a `label` child is
seen in the segment group. -/
def hasLabel (cs : List SegChild) : Bool :=
  cs.any fun c => match c with
    | SegChild.label _ _ => true
    | _ => false

/-- The label synthesis step at the end of the `loadSegments` group loop
(lines 2353-2374): if the group was not labelled and holds a wire, a
global label when the document-wide net count exceeds one, else a local
label when the net node holds more than one segment, else nothing; the
label is placed at the first wire's start point with the escaped net
name. -/
def synthesizeLabel (netCount segmentCount : Nat) (netName : String)
    (cs : List SegChild) : Option SynthLabel :=
  match firstWire cs, hasLabel cs with
  | some w, false =>
    if 1 < netCount then
      some ⟨LabelKind.globalLabel, w.a, escapeName netName⟩
    else if 1 < segmentCount then
      some ⟨LabelKind.localLabel, w.a, escapeName netName⟩
    else none
  | _, _ => none

/-! ### Instance loading (`loadInstance`, lines 2510-2727) -/

/-- The fields of a parsed Eagle `part` element needed by
`loadInstance` (`EPART`). -/
structure EPART where
  library : String
  deviceset : String
  device : String
deriving DecidableEq, Repr

/-- The fields of an Eagle `instance` element needed by `loadInstance`
(`EINSTANCE`). -/
structure EINSTANCE where
  part : String
  gate : String
  x : Int
  y : Int
deriving DecidableEq, Repr

/-- Modelled from the spec: `LIB_ID::FixIllegalChars` is an external
identifier-sanitising utility (the spec only requires that names are
"sanitized identically on every reference"); modelled as the identity
placeholder. -/
def fixSymbolName (s : String) : String := s

/-- Report severity, the model of `RPT_SEVERITY_*`. -/
inductive Severity where
  | info
  | error
deriving DecidableEq, Repr

/-- Observable effects of one `loadInstance` call: reporter messages
with severity, number of items appended to the sheet's screen, and
positions added to the connection-point map. -/
structure InstanceEffects where
  reports : List Severity
  screenAppends : Nat
  connPointsAdded : List Pt
deriving DecidableEq, Repr

/-- Association-list lookup, the model of `std::map::find`. -/
def alistFind {α : Type} (m : List (String × α)) (k : String) : Option α :=
  match m with
  | [] => none
  | (k0, v) :: rest => if k0 = k then some v else alistFind rest k

/-- The symbol name `loadInstance` derives for a part: deviceset name
plus device name, `*` removed, then sanitised (lines 2537-2539). -/
def instanceSymbolName (epart : EPART) : String :=
  fixSymbolName ((epart.deviceset ++ epart.device).replace "*" "")

/-- `SCH_EAGLE_PLUGIN::loadInstance` (lines 2510-2727), modelled at the
level of its observable effects.  The part is looked up by
upper-cased name in the part list; a missing part or a symbol that
cannot be loaded from the imported library reports one error and
returns.  On success the component is appended and each pin's physical
position (supplied by `pinPositions`, the model of the loaded library
symbol's pins) is added to the connection-point map. -/
def loadInstance (partlist : List (String × EPART))
    (libSymbols : String → Option (List Pt)) (einstance : EINSTANCE) :
    InstanceEffects :=
  match alistFind partlist einstance.part.toUpper with
  | none => { reports := [Severity.error], screenAppends := 0, connPointsAdded := [] }
  | some epart =>
    match libSymbols (instanceSymbolName epart) with
    | none => { reports := [Severity.error], screenAppends := 0, connPointsAdded := [] }
    | some pins =>
      { reports := [], screenAppends := 1, connPointsAdded := pins }

/-! ### Power-symbol detection (`loadSymbol`, lines 2828-2975, and the
`loadLibrary` gate loop, lines 2791-2816) -/

/-- Whether an Eagle pin direction string makes `loadSymbol` set its
`ispower` flag: the `pinDirectionsMap` entry matched by the lower-cased
direction is the `"sup"` entry (lines 2857-2871). -/
def isSupDirection (direction : Option String) : Bool :=
  match direction with
  | none => false
  | some d => d.toLower == "sup"

/-- The boolean result of `SCH_EAGLE_PLUGIN::loadSymbol` for one gate's
foreign symbol, given the direction attributes of its pins: the
symbol's running `ispower` flag (set when any pin's direction is
`"sup"`) is returned only when the symbol has exactly one pin
(`return pincount == 1 ? ispower : false`, line 2974). -/
def loadSymbolIsPower (pins : List (Option String)) : Bool :=
  let pincount := pins.length
  let ispower := pins.any isSupDirection
  if pincount = 1 then ispower else false

/-- The power decision of the `loadLibrary` device loop (lines
2791-2810): `ispower` is overwritten by each gate's `loadSymbol` result
(so it ends as the last gate's result), and the part is marked as a
power symbol when the gate count is one and `ispower` holds. -/
def deviceIsPower (gates : List (List (Option String))) : Bool :=
  let gatesCount := gates.length
  let ispower := gates.foldl (fun _ g => loadSymbolIsPower g) false
  gatesCount = 1 && ispower

/-! ### Coordinate convention (C10)

Each loader is modelled on the already-unit-converted integer
coordinates of its Eagle element (`ECOORD::ToSchUnits` is the external
unit conversion); what matters here is which loaders negate Y. -/

/-- The sheet-level axis conversion: Eagle's Y grows bottom-up, the
target's top-down, so sheet items negate Y. -/
def sheetAxis (x y : Int) : Pt := ⟨x, -y⟩

/-- The library-primitive axis convention: source Y kept unchanged. -/
def libAxis (x y : Int) : Pt := ⟨x, y⟩

/-- `loadWire` (lines 2389-2394): sheet wire endpoints. -/
def loadWireSeg (x1 y1 x2 y2 : Int) : Seg := ⟨⟨x1, -y1⟩, ⟨x2, -y2⟩⟩

/-- `loadJunction` (line 2411): junction position. -/
def loadJunctionPos (x y : Int) : Pt := ⟨x, -y⟩

/-- `loadLabel` (line 2422): label position. -/
def loadLabelPos (x y : Int) : Pt := ⟨x, -y⟩

/-- `loadPlainText` (line 3450): sheet text position. -/
def loadPlainTextPos (x y : Int) : Pt := ⟨x, -y⟩

/-- The sheet-level `loadFrame` (lines 2226-2258): the four border
lines through the frame corners. -/
def loadFrameLines (x1 y1 x2 y2 : Int) : List Seg :=
  let corner1 : Pt := ⟨x1, -y1⟩
  let corner3 : Pt := ⟨x2, -y2⟩
  let corner2 : Pt := ⟨corner3.x, corner1.y⟩
  let corner4 : Pt := ⟨corner1.x, corner3.y⟩
  [⟨corner1, corner2⟩, ⟨corner2, corner3⟩, ⟨corner3, corner4⟩, ⟨corner4, corner1⟩]

/-- `loadInstance` component placement (line 2566). -/
def loadInstancePos (x y : Int) : Pt := ⟨x, -y⟩

/-- `loadSymbolWire` straight-line case (lines 3021-3024, 3089-3090). -/
def loadSymbolWireSeg (x1 y1 x2 y2 : Int) : Seg := ⟨⟨x1, y1⟩, ⟨x2, y2⟩⟩

/-- `loadSymbolCircle` position (line 2986). -/
def loadSymbolCirclePos (x y : Int) : Pt := ⟨x, y⟩

/-- `loadSymbolRectangle` (lines 3002-3003): position and end corner. -/
def loadSymbolRectangleSeg (x1 y1 x2 y2 : Int) : Seg := ⟨⟨x1, y1⟩, ⟨x2, y2⟩⟩

/-- `loadPin` position (line 3131). -/
def loadPinPos (x y : Int) : Pt := ⟨x, y⟩

/-- `loadSymbolText` position (line 3231). -/
def loadSymbolTextPos (x y : Int) : Pt := ⟨x, y⟩

/-! ### Missing-unit instantiation (`addImplicitConnections` update phase,
lines 4208-4237, and the `loadSchematic` missing-unit loop, lines
2001-2050)

`EAGLE_MISSING_CMP::units` maps a unit number to a flag that is `true`
for units that still need a synthesized instance; it is modelled as an
insertion-ordered association list. -/

/-- Map of unit number to pending flag (`std::map<int, bool> units`). -/
abbrev UnitsMap := List (Nat × Bool)

/-- `std::map::find` on the units map. -/
def umFind (m : UnitsMap) (k : Nat) : Option Bool :=
  match m with
  | [] => none
  | (k0, v) :: rest => if k0 = k then some v else umFind rest k

/-- `std::map::emplace`: inserts only when the key is absent. -/
def umEmplace (m : UnitsMap) (k : Nat) (v : Bool) : UnitsMap :=
  if (umFind m k).isSome then m else m ++ [(k, v)]

/-- `units[unit] = false` via `operator[]`: updates the value when the
key is present, else inserts it (default then assign). -/
def umAssignFalse (m : UnitsMap) (k : Nat) : UnitsMap :=
  if (umFind m k).isSome then
    m.map (fun kv => if kv.1 = k then (kv.1, false) else kv)
  else m ++ [(k, false)]

/-- The map `reference → units` (`m_missingCmps`, with the stored
component pointer dropped as irrelevant to the unit bookkeeping). -/
abbrev MissingCmps := List (String × UnitsMap)

/-- Replace (or insert) the units map stored for a reference. -/
def mcStore (m : MissingCmps) (ref : String) (u : UnitsMap) : MissingCmps :=
  if (alistFind m ref).isSome then
    m.map (fun kv => if kv.1 = ref then (kv.1, u) else kv)
  else m ++ [(ref, u)]

/-- The `aUpdateSet` phase of `addImplicitConnections` (lines 4208-4237):
when the part has more than one unit, record the processed unit with
flag `false`; then, when power-input pins were found in other units
(`missingUnits`), run the source's recording loop, which emplaces a
unit with flag `true` only when `entry.units.find( i ) !=
entry.units.end()`, i.e. only when the unit is already present. -/
def updateMissingCmps (m : MissingCmps) (reference : String) (unit : Nat)
    (unitCount : Nat) (missingUnits : List Nat) : MissingCmps :=
  if 1 < unitCount then
    let m1 :=
      match alistFind m reference with
      | none => mcStore m reference [(unit, false)]
      | some u => mcStore m reference (umAssignFalse u unit)
    if missingUnits ≠ [] then
      let u1 := (alistFind m1 reference).getD []
      let u2 := missingUnits.foldl
        (fun acc i => if (umFind acc i).isSome then umEmplace acc i true else acc) u1
      mcStore m1 reference u2
    else m1
  else m

/-- The missing-unit loop of `loadSchematic` (lines 2014-2047): a
synthesized instance is appended for every unit entry whose flag is
`true` (entries with flag `false` are skipped as already processed);
this counts the appended instances. -/
def synthesizedInstanceCount (m : MissingCmps) : Nat :=
  (m.map (fun kv => (kv.2.filter (fun u => u.2 = true)).length)).sum

/-! ### Bus-entry synthesis (`addBusEntries`, lines 3604-4126)

The function walks every (bus line, wire line) pair of the sheet.  For
one pair it runs, in order: the horizontal-wire/vertical-bus block, the
vertical-wire/horizontal-bus block (both against the local variables
captured before the blocks), then refreshes the locals from the wire
and runs the free-angle start and end blocks.  Appended bus entries and
markers are modelled as an event list; label re-homing (`moveLabels`)
does not affect the wire or the events and is not modelled. -/

/-- An item appended to the screen by `addBusEntries`: a bus-entry
connector (`SCH_BUS_WIRE_ENTRY( pos, flipped )`) or an ERC marker. -/
inductive BusEv where
  | entry (pos : Pt) (flipped : Bool)
  | marker (pos : Pt) (msg : String)
deriving DecidableEq, Repr

/-- The marker message of the undeterminable-orientation branches. -/
def busEntryNeeded : String := "Bus Entry needed"

/-- Number of bus-entry connectors in an event list. -/
def countEntries (evs : List BusEv) : Nat :=
  (evs.filter fun e => match e with
    | BusEv.entry _ _ => true
    | BusEv.marker _ _ => false).length

/-- Number of markers in an event list. -/
def countMarkers (evs : List BusEv) : Nat :=
  (evs.filter fun e => match e with
    | BusEv.entry _ _ => false
    | BusEv.marker _ _ => true).length

/-- Horizontal wire whose start lies on the vertical bus (lines
3641-3719): probes the bus one increment above/below the touch point,
keyed on which side the wire departs to; returns the events and the new
wire start point. -/
def hwStartOnBus (bus : Seg) (ls le : Pt) : List BusEv × Pt :=
  if le.x < bus.a.x then
    if onSeg ⟨ls.x, ls.y - 100⟩ bus then
      ([BusEv.entry ⟨ls.x - 100, ls.y⟩ true], ⟨ls.x - 100, ls.y⟩)
    else if onSeg ⟨ls.x, ls.y + 100⟩ bus then
      ([BusEv.entry ⟨ls.x - 100, ls.y⟩ false], ⟨ls.x - 100, ls.y⟩)
    else ([BusEv.marker ls busEntryNeeded], ls)
  else
    if onSeg ⟨ls.x, ls.y - 100⟩ bus then
      ([BusEv.entry ⟨ls.x, ls.y - 100⟩ false], ⟨ls.x + 100, ls.y⟩)
    else if onSeg ⟨ls.x, ls.y + 100⟩ bus then
      ([BusEv.entry ⟨ls.x, ls.y + 100⟩ true], ⟨ls.x + 100, ls.y⟩)
    else ([BusEv.marker ls busEntryNeeded], ls)

/-- Horizontal wire whose end lies on the vertical bus (lines
3722-3799): returns the events and the new wire end point. -/
def hwEndOnBus (bus : Seg) (ls le : Pt) : List BusEv × Pt :=
  if ls.x < bus.a.x then
    if onSeg ⟨le.x, le.y + 100⟩ bus then
      ([BusEv.entry ⟨le.x - 100, le.y⟩ false], ⟨le.x - 100, le.y⟩)
    else if onSeg ⟨le.x, le.y - 100⟩ bus then
      ([BusEv.entry ⟨le.x - 100, le.y⟩ true], ⟨le.x - 100, le.y⟩)
    else ([BusEv.marker le busEntryNeeded], le)
  else
    if onSeg ⟨le.x, le.y - 100⟩ bus then
      ([BusEv.entry ⟨le.x, le.y - 100⟩ false], ⟨le.x + 100, le.y⟩)
    else if onSeg ⟨le.x, le.y + 100⟩ bus then
      ([BusEv.entry ⟨le.x, le.y + 100⟩ true], ⟨le.x + 100, le.y⟩)
    else ([BusEv.marker le busEntryNeeded], le)

/-- Vertical wire whose start lies on the horizontal bus (lines
3805-3873). -/
def vwStartOnBus (bus : Seg) (ls le : Pt) : List BusEv × Pt :=
  if le.y < bus.a.y then
    if onSeg ⟨ls.x - 100, ls.y⟩ bus then
      ([BusEv.entry ⟨ls.x - 100, ls.y⟩ true], ⟨ls.x, ls.y - 100⟩)
    else if onSeg ⟨ls.x + 100, ls.y⟩ bus then
      ([BusEv.entry ⟨ls.x, ls.y + 100⟩ false], ⟨ls.x, ls.y - 100⟩)
    else ([BusEv.marker ls busEntryNeeded], ls)
  else
    if onSeg ⟨ls.x - 100, ls.y⟩ bus then
      ([BusEv.entry ⟨ls.x - 100, ls.y⟩ false], ⟨ls.x, ls.y + 100⟩)
    else if onSeg ⟨ls.x + 100, ls.y⟩ bus then
      ([BusEv.entry ⟨ls.x + 100, ls.y⟩ true], ⟨ls.x, ls.y + 100⟩)
    else ([BusEv.marker ls busEntryNeeded], ls)

/-- Vertical wire whose end lies on the horizontal bus (lines
3875-3945). -/
def vwEndOnBus (bus : Seg) (ls le : Pt) : List BusEv × Pt :=
  if ls.y < bus.a.y then
    if onSeg ⟨le.x - 100, le.y⟩ bus then
      ([BusEv.entry ⟨le.x - 100, le.y⟩ true], ⟨le.x, le.y - 100⟩)
    else if onSeg ⟨le.x + 100, le.y⟩ bus then
      ([BusEv.entry ⟨le.x, le.y - 100⟩ false], ⟨le.x, le.y - 100⟩)
    else ([BusEv.marker le busEntryNeeded], le)
  else
    if onSeg ⟨le.x - 100, le.y⟩ bus then
      ([BusEv.entry ⟨le.x - 100, le.y⟩ false], ⟨le.x, le.y + 100⟩)
    else if onSeg ⟨le.x + 100, le.y⟩ bus then
      ([BusEv.entry ⟨le.x + 100, le.y⟩ true], ⟨le.x, le.y + 100⟩)
    else ([BusEv.marker le busEntryNeeded], le)

/-- The horizontal-wire/vertical-bus block (lines 3639-3800): start
test then end test, both against the stale local endpoints. -/
def busHV (bus stale cur : Seg) : List BusEv × Seg :=
  if stale.a.y = stale.b.y ∧ bus.a.x = bus.b.x then
    let r1 :=
      if onSeg stale.a bus then
        let hs := hwStartOnBus bus stale.a stale.b
        (hs.1, { cur with a := hs.2 })
      else ([], cur)
    let r2 :=
      if onSeg stale.b bus then
        let he := hwEndOnBus bus stale.a stale.b
        (he.1, { r1.2 with b := he.2 })
      else ([], r1.2)
    (r1.1 ++ r2.1, r2.2)
  else ([], cur)

/-- The vertical-wire/horizontal-bus block (lines 3803-3946). -/
def busVH (bus stale cur : Seg) : List BusEv × Seg :=
  if stale.a.x = stale.b.x ∧ bus.a.y = bus.b.y then
    let r1 :=
      if onSeg stale.a bus then
        let vs := vwStartOnBus bus stale.a stale.b
        (vs.1, { cur with a := vs.2 })
      else ([], cur)
    let r2 :=
      if onSeg stale.b bus then
        let ve := vwEndOnBus bus stale.a stale.b
        (ve.1, { r1.2 with b := ve.2 })
      else ([], r1.2)
    (r1.1 ++ r2.1, r2.2)
  else ([], cur)

/-- The free-angle start block (lines 3954-4040): direction keyed only
on the sign of the wire's direction vector; the wire is deleted when
the shortened wire would be fully overlapped by the entry glyph. -/
def freeStartOnBus (ls le : Pt) (cur : Seg) : List BusEv × Option Seg :=
  if 0 < ls.x - le.x then
    if 0 < ls.y - le.y then
      ([BusEv.entry ⟨ls.x - 100, ls.y - 100⟩ false],
        if (⟨ls.x - 100, ls.y - 100⟩ : Pt) = le then none
        else some { cur with a := ⟨ls.x - 100, ls.y - 100⟩ })
    else
      ([BusEv.entry ⟨ls.x - 100, ls.y + 100⟩ true],
        if (⟨ls.x - 100, ls.y + 100⟩ : Pt) = le then none
        else some { cur with a := ⟨ls.x - 100, ls.y + 100⟩ })
  else
    if 0 < ls.y - le.y then
      ([BusEv.entry ls true],
        if (⟨ls.x + 100, ls.y - 100⟩ : Pt) = le then none
        else some { cur with a := ⟨ls.x + 100, ls.y - 100⟩ })
    else
      ([BusEv.entry ls false],
        if (⟨ls.x + 100, ls.y + 100⟩ : Pt) = le then none
        else some { cur with a := ⟨ls.x + 100, ls.y + 100⟩ })

/-- The free-angle end block (lines 4042-4122). -/
def freeEndOnBus (ls le : Pt) (cur : Seg) : List BusEv × Option Seg :=
  if 0 < ls.x - le.x then
    if 0 < ls.y - le.y then
      ([BusEv.entry le false],
        if (⟨le.x + 100, le.y + 100⟩ : Pt) = ls then none
        else some { cur with b := ⟨le.x + 100, le.y + 100⟩ })
    else
      ([BusEv.entry le true],
        if (⟨le.x + 100, le.y - 100⟩ : Pt) = ls then none
        else some { cur with b := ⟨le.x + 100, le.y - 100⟩ })
  else
    if 0 < ls.y - le.y then
      ([BusEv.entry ⟨le.x - 100, le.y + 100⟩ true],
        if (⟨le.x - 100, le.y + 100⟩ : Pt) = ls then none
        else some { cur with b := ⟨le.x - 100, le.y + 100⟩ })
    else
      ([BusEv.entry ⟨le.x - 100, le.y - 100⟩ false],
        if (⟨le.x - 100, le.y - 100⟩ : Pt) = ls then none
        else some { cur with b := ⟨le.x - 100, le.y - 100⟩ })

/-- Processing of one (bus, wire) pair by `addBusEntries` (body of the
inner loop, lines 3629-4123): the two orthogonal blocks against the
stale locals, the local refresh (lines 3948-3951), then the free-angle
start and end blocks; returns the appended events in order and the
final wire (`none` when the wire was deleted). -/
def processBusWire (bus wire : Seg) : List BusEv × Option Seg :=
  let stale := wire
  let rHV := busHV bus stale wire
  let rVH := busVH bus stale rHV.2
  let ls := rVH.2.a
  let le := rVH.2.b
  let rF1 := if onSeg ls bus then freeStartOnBus ls le rVH.2 else ([], some rVH.2)
  let rF2 :=
    match rF1.2 with
    | none => (([] : List BusEv), (none : Option Seg))
    | some c => if onSeg le bus then freeEndOnBus ls le c else ([], some c)
  (rHV.1 ++ rVH.1 ++ rF1.1 ++ rF2.1, rF2.2)

/-! ### Label placement correction (`adjustNetLabels`, lines 3492-3566)

A label lying off all of its group's segments is snapped to the nearest
candidate point of the group (`findNearestLinePoint`), then the
displacement loop (lines 3536-3557) probes positions alternating along
the attached segment's direction until it finds one on the segment and
off every cross-group intersection, or both directions are exhausted. -/

/-- `SEG_DESC::LabelAttached` (lines 4129-4140): first segment of the
group containing the label position, if any. -/
def labelAttached (segs : List Seg) (p : Pt) : Option Seg :=
  segs.find? (fun s => onSeg p s)

/-- The sorted `m_wireIntersections` membership test (`binary_search`
over the sorted vector, lines 3499-3506). -/
def onIntersection (inters : List Pt) (p : Pt) : Bool :=
  inters.contains p

/-- Modelled from the spec: `VECTOR2I::Resize` (the fixed-length step
vector `wireDirection`, line 3532) is external geometry; the spec only
requires a fixed-length step along the attached segment's direction, and
the zero vector resizes to zero, so it is modelled as the identity on
nonzero vectors and zero on the zero vector. -/
def resizeStep (v : Pt) : Pt :=
  if v = ⟨0, 0⟩ then ⟨0, 0⟩ else v

/-- The step vector of the displacement loop: the attached segment's
direction (`segAttached->B - segAttached->A`), resized. -/
def wireDirectionOf (seg : Seg) : Pt :=
  resizeStep ⟨seg.b.x - seg.a.x, seg.b.y - seg.a.y⟩

/-- `wireDirection * trial / 2` (lines 3547, 3552) with C++ truncating
integer division, componentwise. -/
def mulTrialDiv2 (d : Pt) (t : Nat) : Pt :=
  ⟨Int.tdiv (d.x * t) 2, Int.tdiv (d.y * t) 2⟩

/-- The mutable state of the displacement loop: `labelPos`, `move`,
`checkPositive`, `checkNegative`, `trial`. -/
structure SearchState where
  labelPos : Pt
  move : Bool
  checkPositive : Bool
  checkNegative : Bool
  trial : Nat
deriving DecidableEq, Repr

/-- State on entry to the loop (lines 3533-3537): position at the
snapped origin, `move = false`, both directions open, `trial = 0`. -/
def initSearch (origPos : Pt) : SearchState :=
  ⟨origPos, false, true, true, 0⟩

/-- The loop condition (line 3540):
`( !move || onIntersection( labelPos ) ) && ( checkPositive || checkNegative )`. -/
def searchContinues (inters : List Pt) (st : SearchState) : Bool :=
  (!st.move || onIntersection inters st.labelPos) &&
    (st.checkPositive || st.checkNegative)

/-- One loop body iteration (lines 3542-3556): an odd trial probes in
the positive direction updating `checkPositive`, an even trial in the
negative direction updating `checkNegative`; `move` records whether the
probe lies on the attached segment, and `trial` advances. -/
def searchStep (seg : Seg) (origPos d : Pt) (st : SearchState) : SearchState :=
  if st.trial % 2 = 1 then
    ⟨⟨origPos.x + (mulTrialDiv2 d st.trial).x, origPos.y + (mulTrialDiv2 d st.trial).y⟩,
      onSeg ⟨origPos.x + (mulTrialDiv2 d st.trial).x,
        origPos.y + (mulTrialDiv2 d st.trial).y⟩ seg,
      onSeg ⟨origPos.x + (mulTrialDiv2 d st.trial).x,
        origPos.y + (mulTrialDiv2 d st.trial).y⟩ seg,
      st.checkNegative, st.trial + 1⟩
  else
    ⟨⟨origPos.x - (mulTrialDiv2 d st.trial).x, origPos.y - (mulTrialDiv2 d st.trial).y⟩,
      onSeg ⟨origPos.x - (mulTrialDiv2 d st.trial).x,
        origPos.y - (mulTrialDiv2 d st.trial).y⟩ seg,
      st.checkPositive,
      onSeg ⟨origPos.x - (mulTrialDiv2 d st.trial).x,
        origPos.y - (mulTrialDiv2 d st.trial).y⟩ seg,
      st.trial + 1⟩

/-- The displacement loop run with fuel: iterates the body while the
loop condition holds, at most `n` times. -/
def searchRun (inters : List Pt) (seg : Seg) (origPos d : Pt) :
    Nat → SearchState → SearchState
  | 0, st => st
  | n + 1, st =>
    if searchContinues inters st then
      searchRun inters seg origPos d n (searchStep seg origPos d st)
    else st

/-- The label position after the loop (lines 3559-3560): moved to the
found position when `move` holds, otherwise left at the original label
position. -/
def adjustedLabelPos (inters : List Pt) (seg : Seg) (origPos d labelPos : Pt)
    (n : Nat) : Pt :=
  let st := searchRun inters seg origPos d n (initSearch origPos)
  if st.move then st.labelPos else labelPos

/-- Fuel after which both probe directions must have left the segment:
twice the coordinate spread of the segment around the snap origin,
plus slack. -/
def searchBound (seg : Seg) (origPos : Pt) : Nat :=
  2 * ((seg.a.x - origPos.x).natAbs + (seg.b.x - origPos.x).natAbs +
    (seg.a.y - origPos.y).natAbs + (seg.b.y - origPos.y).natAbs) + 3

/-- Loop invariant: `move` only holds when the current position lies on
the attached segment, and `move` implies the flag of the last-probed
direction is still set. -/
def searchInv (seg : Seg) (st : SearchState) : Prop :=
  (st.move = true → onSeg st.labelPos seg = true) ∧
  (st.move = true → st.checkPositive = true ∨ st.checkNegative = true)

theorem onSeg_eq_true_iff (p : Pt) (s : Seg) :
    onSeg p s = true ↔
      (s.b.x - s.a.x) * (p.y - s.a.y) = (s.b.y - s.a.y) * (p.x - s.a.x) ∧
      min s.a.x s.b.x ≤ p.x ∧ p.x ≤ max s.a.x s.b.x ∧
      min s.a.y s.b.y ≤ p.y ∧ p.y ≤ max s.a.y s.b.y := by
  simp [onSeg, Bool.and_eq_true, and_assoc]

theorem onSeg_x_eq {p : Pt} {s : Seg} (hv : s.a.x = s.b.x)
    (h : onSeg p s = true) : p.x = s.a.x := by
  rw [onSeg_eq_true_iff] at h
  omega

theorem onSeg_y_eq {p : Pt} {s : Seg} (hh : s.a.y = s.b.y)
    (h : onSeg p s = true) : p.y = s.a.y := by
  rw [onSeg_eq_true_iff] at h
  omega

theorem onSeg_false_of_x_ne {p : Pt} {s : Seg} (hv : s.a.x = s.b.x)
    (h : p.x ≠ s.a.x) : onSeg p s = false := by
  cases hc : onSeg p s with
  | false => rfl
  | true => exact absurd (onSeg_x_eq hv hc) h

theorem onSeg_false_of_y_ne {p : Pt} {s : Seg} (hh : s.a.y = s.b.y)
    (h : p.y ≠ s.a.y) : onSeg p s = false := by
  cases hc : onSeg p s with
  | false => rfl
  | true => exact absurd (onSeg_y_eq hh hc) h

/-- C5: for every justification value in the nine-member Eagle alignment
enumeration and every absolute rotation angle in {0, 90, 180, 270},
applying the mirror step of `eagleToKicadAlignment` twice with the same
rotation returns the original justification: the mirror permutation is
an involution on the alignment enumeration. -/
theorem mirrorAlign_involution :
    (([0, 90, 180, 270] : List Int).all fun deg =>
      alignEnum.all fun al => mirrorAlign deg (mirrorAlign deg al) = al) = true := by
  decide

/-- C8: the nearest-candidate search does not minimise Euclidean
distance.  On the query point (0,0) with two degenerate segments at
(2,0) and (3,0), the source returns the candidate (3,0) of segment 1,
although the candidate (2,0) is strictly closer in Euclidean distance:
`(dx) ^ 2` in the source is bitwise XOR, not squaring, and the XOR
metric of (3,0) is 1 while that of (2,0) is 2. -/
theorem findNearestLinePoint_not_euclidean :
    findNearestLinePoint ⟨0, 0⟩ [⟨⟨2, 0⟩, ⟨2, 0⟩⟩, ⟨⟨3, 0⟩, ⟨3, 0⟩⟩] =
        some (⟨3, 0⟩, 1) ∧
      (⟨2, 0⟩ : Pt) ∈ candidatePoints [⟨⟨2, 0⟩, ⟨2, 0⟩⟩, ⟨⟨3, 0⟩, ⟨3, 0⟩⟩] ∧
      sqDist ⟨0, 0⟩ ⟨2, 0⟩ < sqDist ⟨0, 0⟩ ⟨3, 0⟩ ∧
      codeDistance ⟨0, 0⟩ ⟨3, 0⟩ < codeDistance ⟨0, 0⟩ ⟨2, 0⟩ := by
  refine ⟨rfl, by decide, by decide, by decide⟩

/-- C2: a net segment group gets a synthesized label exactly when it
holds at least one wire, carries no explicit label, and either the
document-wide count of the net name exceeds one or the net node holds
more than one segment; the label is global exactly when the net count
exceeds one, local exactly when it does not but the segment count
exceeds one, and it is placed at the first wire's start point carrying
the escaped net name. -/
theorem loadSegments_label_policy (netCount segmentCount : Nat)
    (netName : String) (cs : List SegChild) :
    ((synthesizeLabel netCount segmentCount netName cs).isSome ↔
      (firstWire cs).isSome ∧ hasLabel cs = false ∧
        (1 < netCount ∨ 1 < segmentCount)) ∧
    (∀ l : SynthLabel,
      synthesizeLabel netCount segmentCount netName cs = some l →
        (l.kind = LabelKind.globalLabel ↔ 1 < netCount) ∧
        (l.kind = LabelKind.localLabel ↔ ¬ 1 < netCount ∧ 1 < segmentCount) ∧
        l.text = escapeName netName ∧
        (firstWire cs).map Seg.a = some l.pos) := by
  constructor
  · unfold synthesizeLabel
    cases hf : firstWire cs with
    | none => simp
    | some w =>
      cases hl : hasLabel cs with
      | false =>
        by_cases h1 : 1 < netCount
        · simp [h1]
        · by_cases h2 : 1 < segmentCount <;> simp [h1, h2]
      | true => simp
  · intro l hsome
    cases hf : firstWire cs with
    | none => simp [synthesizeLabel, hf] at hsome
    | some w =>
      cases hl : hasLabel cs with
      | true => simp [synthesizeLabel, hf, hl] at hsome
      | false =>
        by_cases h1 : 1 < netCount
        · have hval : l = ⟨LabelKind.globalLabel, w.a, escapeName netName⟩ := by
            have := hsome
            simp [synthesizeLabel, hf, hl, h1] at this
            exact this.symm
          subst hval
          simp [h1, hf]
        · by_cases h2 : 1 < segmentCount
          · have hval : l = ⟨LabelKind.localLabel, w.a, escapeName netName⟩ := by
              have := hsome
              simp [synthesizeLabel, hf, hl, h1, h2] at this
              exact this.symm
            subst hval
            simp [h1, h2, hf]
          · simp [synthesizeLabel, hf, hl, h1, h2] at hsome

/-- Witness for C2: a group with one wire and no label on a net counted
on two sheets gets a global label at the wire's start. -/
theorem loadSegments_label_policy_witness :
    ((synthesizeLabel 2 1 "N1"
        [SegChild.wire ⟨⟨1, 2⟩, ⟨3, 2⟩⟩]).isSome ↔
      (firstWire [SegChild.wire ⟨⟨1, 2⟩, ⟨3, 2⟩⟩]).isSome ∧
        hasLabel [SegChild.wire ⟨⟨1, 2⟩, ⟨3, 2⟩⟩] = false ∧
        ((1 : Nat) < 2 ∨ (1 : Nat) < 1)) ∧
    (∀ l : SynthLabel,
      synthesizeLabel 2 1 "N1" [SegChild.wire ⟨⟨1, 2⟩, ⟨3, 2⟩⟩] = some l →
        (l.kind = LabelKind.globalLabel ↔ (1 : Nat) < 2) ∧
        (l.kind = LabelKind.localLabel ↔ ¬ (1 : Nat) < 2 ∧ (1 : Nat) < 1) ∧
        l.text = escapeName "N1" ∧
        (firstWire [SegChild.wire ⟨⟨1, 2⟩, ⟨3, 2⟩⟩]).map Seg.a = some l.pos) :=
  loadSegments_label_policy 2 1 "N1" [SegChild.wire ⟨⟨1, 2⟩, ⟨3, 2⟩⟩]

/-- C7: when the instance's part name is absent from the part list, or
its symbol cannot be loaded from the imported library, `loadInstance`
reports exactly one error-severity diagnostic, appends nothing to the
sheet's screen, and adds nothing to the connection-point map; being a
total function of its inputs, it returns normally so the import
continues. -/
theorem loadInstance_unresolved_skips (partlist : List (String × EPART))
    (libSymbols : String → Option (List Pt)) (einstance : EINSTANCE)
    (h : alistFind partlist einstance.part.toUpper = none ∨
      ∀ epart, alistFind partlist einstance.part.toUpper = some epart →
        libSymbols (instanceSymbolName epart) = none) :
    loadInstance partlist libSymbols einstance =
      { reports := [Severity.error], screenAppends := 0, connPointsAdded := [] } := by
  unfold loadInstance
  cases hf : alistFind partlist einstance.part.toUpper with
  | none => rfl
  | some epart =>
    rcases h with h | h
    · rw [hf] at h; cases h
    · simp [h epart hf]

/-- Witness for C7: an instance referencing a part name missing from
the part list is skipped with one error report. -/
theorem loadInstance_unresolved_skips_witness :
    loadInstance [] (fun _ => none) ⟨"U1", "A", 0, 0⟩ =
      { reports := [Severity.error], screenAppends := 0, connPointsAdded := [] } :=
  loadInstance_unresolved_skips [] (fun _ => none) ⟨"U1", "A", 0, 0⟩ (Or.inl rfl)

/-- C9: a translated device symbol is marked as a power symbol exactly
when the device set has exactly one gate and that gate's foreign symbol
has exactly one pin whose electrical type denotes a supply. -/
theorem deviceIsPower_iff (gates : List (List (Option String))) :
    deviceIsPower gates = true ↔
      ∃ d : Option String, gates = [[d]] ∧ isSupDirection d = true := by
  constructor
  · intro h
    unfold deviceIsPower at h
    rw [Bool.and_eq_true, decide_eq_true_iff] at h
    obtain ⟨hlen, hpow⟩ := h
    match gates, hlen with
    | [g], _ =>
      simp only [List.foldl] at hpow
      unfold loadSymbolIsPower at hpow
      by_cases hg : g.length = 1
      · match g, hg with
        | [d], _ =>
          refine ⟨d, rfl, ?_⟩
          simpa using hpow
      · simp [hg] at hpow
  · rintro ⟨d, rfl, hd⟩
    simp [deviceIsPower, loadSymbolIsPower, hd]

/-- Witness for C9: a single-gate device whose only pin has direction
`"sup"` is marked as a power symbol. -/
theorem deviceIsPower_iff_witness :
    deviceIsPower [[some "sup"]] = true ↔
      ∃ d : Option String, [[some "sup"]] = [[d]] ∧ isSupDirection d = true :=
  deviceIsPower_iff [[some "sup"]]

/-- C10: every sheet-level loader places its item at the source X with
the source Y negated (bottom-up to top-down axis conversion), while
every library-symbol primitive loader keeps the source Y unnegated. -/
theorem axis_convention (x y x2 y2 : Int) :
    loadWireSeg x y x2 y2 = ⟨sheetAxis x y, sheetAxis x2 y2⟩ ∧
    loadJunctionPos x y = sheetAxis x y ∧
    loadLabelPos x y = sheetAxis x y ∧
    loadPlainTextPos x y = sheetAxis x y ∧
    loadFrameLines x y x2 y2 =
      [⟨sheetAxis x y, ⟨(sheetAxis x2 y2).x, (sheetAxis x y).y⟩⟩,
       ⟨⟨(sheetAxis x2 y2).x, (sheetAxis x y).y⟩, sheetAxis x2 y2⟩,
       ⟨sheetAxis x2 y2, ⟨(sheetAxis x y).x, (sheetAxis x2 y2).y⟩⟩,
       ⟨⟨(sheetAxis x y).x, (sheetAxis x2 y2).y⟩, sheetAxis x y⟩] ∧
    loadInstancePos x y = sheetAxis x y ∧
    loadSymbolWireSeg x y x2 y2 = ⟨libAxis x y, libAxis x2 y2⟩ ∧
    loadSymbolCirclePos x y = libAxis x y ∧
    loadSymbolRectangleSeg x y x2 y2 = ⟨libAxis x y, libAxis x2 y2⟩ ∧
    loadPinPos x y = libAxis x y ∧
    loadSymbolTextPos x y = libAxis x y := by
  refine ⟨rfl, rfl, rfl, rfl, rfl, rfl, rfl, rfl, rfl, rfl, rfl⟩

/-- C4: for a three-unit part of which only unit 1 was drawn (its
power-input pins reporting units 2 and 3 as missing), the recording
loop never stores units 2 and 3 — its guard `find( i ) != end()`
admits only units already present, for which `emplace` is a no-op — so
zero synthesized instances are appended to the root sheet instead of
the two the claim requires. -/
theorem missing_units_never_recorded :
    updateMissingCmps [] "U1" 1 3 [2, 3] = [("U1", [(1, false)])] ∧
      synthesizedInstanceCount (updateMissingCmps [] "U1" 1 3 [2, 3]) = 0 := by
  constructor <;> rfl

/-- General form of the C4 defect: the recording loop of
`addImplicitConnections` never changes the stored units map, whatever
its prior contents, because its guard only admits keys for which
`emplace` does nothing. -/
theorem missing_units_loop_is_noop (u : UnitsMap) (missingUnits : List Nat) :
    missingUnits.foldl
      (fun acc i => if (umFind acc i).isSome then umEmplace acc i true else acc) u = u := by
  induction missingUnits generalizing u with
  | nil => rfl
  | cons i rest ih =>
    have hstep : (if (umFind u i).isSome then umEmplace u i true else u) = u := by
      by_cases h : (umFind u i).isSome
      · simp [umEmplace, h]
      · simp [h]
    rw [List.foldl_cons, hstep]
    exact ih u

/-- C6: on a vertical bus from (0,0) to (0,50) and a horizontal wire
from (0,0) to (200,0), the wire start lies on the bus but neither probe
point one increment above or below the touch point does.  The marker
branch appends the "Bus Entry needed" marker — but then, because the
wire was left untouched, the free-angle block's guard still finds the
start on the bus and appends a bus-entry connector and moves the wire
start diagonally, contradicting the claim that no connector is created
and the wire is left unchanged. -/
theorem addBusEntries_marker_fallthrough :
    onSeg (⟨0, 0⟩ : Pt) ⟨⟨0, 0⟩, ⟨0, 50⟩⟩ = true ∧
    onSeg (⟨0, -100⟩ : Pt) ⟨⟨0, 0⟩, ⟨0, 50⟩⟩ = false ∧
    onSeg (⟨0, 100⟩ : Pt) ⟨⟨0, 0⟩, ⟨0, 50⟩⟩ = false ∧
    processBusWire ⟨⟨0, 0⟩, ⟨0, 50⟩⟩ ⟨⟨0, 0⟩, ⟨200, 0⟩⟩ =
      ([BusEv.marker ⟨0, 0⟩ busEntryNeeded, BusEv.entry ⟨0, 0⟩ false],
        some ⟨⟨100, 100⟩, ⟨200, 0⟩⟩) := by
  refine ⟨by decide, by decide, by decide, by decide⟩

theorem countEntries_append (l1 l2 : List BusEv) :
    countEntries (l1 ++ l2) = countEntries l1 + countEntries l2 := by
  simp [countEntries, List.filter_append]

theorem hwStartOnBus_spec (bus : Seg) (ls le : Pt) (_hv : bus.a.x = bus.b.x)
    (hls : onSeg ls bus = true) :
    (countEntries (hwStartOnBus bus ls le).1 = 1 ∧
      (hwStartOnBus bus ls le).2.y = ls.y ∧
      ((hwStartOnBus bus ls le).2.x = ls.x - 100 ∨
        (hwStartOnBus bus ls le).2.x = ls.x + 100) ∧
      (bus.a.y = bus.b.y → False)) ∨
    ((hwStartOnBus bus ls le).1 = [BusEv.marker ls busEntryNeeded] ∧
      (hwStartOnBus bus ls le).2 = ls) := by
  have hlsy : ls.y = bus.a.y → ls.y = bus.a.y := id
  unfold hwStartOnBus
  split_ifs with h1 h2 h3 h4 h5
  · refine Or.inl ⟨by simp [countEntries], rfl, Or.inl rfl, fun hh => ?_⟩
    have hp : ls.y - 100 = bus.a.y := onSeg_y_eq hh h2
    have hq : ls.y = bus.a.y := onSeg_y_eq hh hls
    omega
  · refine Or.inl ⟨by simp [countEntries], rfl, Or.inl rfl, fun hh => ?_⟩
    have hp : ls.y + 100 = bus.a.y := onSeg_y_eq hh h3
    have hq : ls.y = bus.a.y := onSeg_y_eq hh hls
    omega
  · exact Or.inr ⟨rfl, rfl⟩
  · refine Or.inl ⟨by simp [countEntries], rfl, Or.inr rfl, fun hh => ?_⟩
    have hp : ls.y - 100 = bus.a.y := onSeg_y_eq hh h4
    have hq : ls.y = bus.a.y := onSeg_y_eq hh hls
    omega
  · refine Or.inl ⟨by simp [countEntries], rfl, Or.inr rfl, fun hh => ?_⟩
    have hp : ls.y + 100 = bus.a.y := onSeg_y_eq hh h5
    have hq : ls.y = bus.a.y := onSeg_y_eq hh hls
    omega
  · exact Or.inr ⟨rfl, rfl⟩

theorem hwEndOnBus_spec (bus : Seg) (ls le : Pt) (_hv : bus.a.x = bus.b.x)
    (hle : onSeg le bus = true) :
    (countEntries (hwEndOnBus bus ls le).1 = 1 ∧
      (hwEndOnBus bus ls le).2.y = le.y ∧
      ((hwEndOnBus bus ls le).2.x = le.x - 100 ∨
        (hwEndOnBus bus ls le).2.x = le.x + 100) ∧
      (bus.a.y = bus.b.y → False)) ∨
    ((hwEndOnBus bus ls le).1 = [BusEv.marker le busEntryNeeded] ∧
      (hwEndOnBus bus ls le).2 = le) := by
  unfold hwEndOnBus
  split_ifs with h1 h2 h3 h4 h5
  · refine Or.inl ⟨by simp [countEntries], rfl, Or.inl rfl, fun hh => ?_⟩
    have hp : le.y + 100 = bus.a.y := onSeg_y_eq hh h2
    have hq : le.y = bus.a.y := onSeg_y_eq hh hle
    omega
  · refine Or.inl ⟨by simp [countEntries], rfl, Or.inl rfl, fun hh => ?_⟩
    have hp : le.y - 100 = bus.a.y := onSeg_y_eq hh h3
    have hq : le.y = bus.a.y := onSeg_y_eq hh hle
    omega
  · exact Or.inr ⟨rfl, rfl⟩
  · refine Or.inl ⟨by simp [countEntries], rfl, Or.inr rfl, fun hh => ?_⟩
    have hp : le.y - 100 = bus.a.y := onSeg_y_eq hh h4
    have hq : le.y = bus.a.y := onSeg_y_eq hh hle
    omega
  · refine Or.inl ⟨by simp [countEntries], rfl, Or.inr rfl, fun hh => ?_⟩
    have hp : le.y + 100 = bus.a.y := onSeg_y_eq hh h5
    have hq : le.y = bus.a.y := onSeg_y_eq hh hle
    omega
  · exact Or.inr ⟨rfl, rfl⟩

theorem vwStartOnBus_spec (bus : Seg) (ls le : Pt) (_hh : bus.a.y = bus.b.y)
    (hls : onSeg ls bus = true) :
    (countEntries (vwStartOnBus bus ls le).1 = 1 ∧
      (vwStartOnBus bus ls le).2.x = ls.x ∧
      ((vwStartOnBus bus ls le).2.y = ls.y - 100 ∨
        (vwStartOnBus bus ls le).2.y = ls.y + 100) ∧
      (bus.a.x = bus.b.x → False)) ∨
    ((vwStartOnBus bus ls le).1 = [BusEv.marker ls busEntryNeeded] ∧
      (vwStartOnBus bus ls le).2 = ls) := by
  unfold vwStartOnBus
  split_ifs with h1 h2 h3 h4 h5
  · refine Or.inl ⟨by simp [countEntries], rfl, Or.inl rfl, fun hv => ?_⟩
    have hp : ls.x - 100 = bus.a.x := onSeg_x_eq hv h2
    have hq : ls.x = bus.a.x := onSeg_x_eq hv hls
    omega
  · refine Or.inl ⟨by simp [countEntries], rfl, Or.inl rfl, fun hv => ?_⟩
    have hp : ls.x + 100 = bus.a.x := onSeg_x_eq hv h3
    have hq : ls.x = bus.a.x := onSeg_x_eq hv hls
    omega
  · exact Or.inr ⟨rfl, rfl⟩
  · refine Or.inl ⟨by simp [countEntries], rfl, Or.inr rfl, fun hv => ?_⟩
    have hp : ls.x - 100 = bus.a.x := onSeg_x_eq hv h4
    have hq : ls.x = bus.a.x := onSeg_x_eq hv hls
    omega
  · refine Or.inl ⟨by simp [countEntries], rfl, Or.inr rfl, fun hv => ?_⟩
    have hp : ls.x + 100 = bus.a.x := onSeg_x_eq hv h5
    have hq : ls.x = bus.a.x := onSeg_x_eq hv hls
    omega
  · exact Or.inr ⟨rfl, rfl⟩

theorem vwEndOnBus_spec (bus : Seg) (ls le : Pt) (_hh : bus.a.y = bus.b.y)
    (hle : onSeg le bus = true) :
    (countEntries (vwEndOnBus bus ls le).1 = 1 ∧
      (vwEndOnBus bus ls le).2.x = le.x ∧
      ((vwEndOnBus bus ls le).2.y = le.y - 100 ∨
        (vwEndOnBus bus ls le).2.y = le.y + 100) ∧
      (bus.a.x = bus.b.x → False)) ∨
    ((vwEndOnBus bus ls le).1 = [BusEv.marker le busEntryNeeded] ∧
      (vwEndOnBus bus ls le).2 = le) := by
  unfold vwEndOnBus
  split_ifs with h1 h2 h3 h4 h5
  · refine Or.inl ⟨by simp [countEntries], rfl, Or.inl rfl, fun hv => ?_⟩
    have hp : le.x - 100 = bus.a.x := onSeg_x_eq hv h2
    have hq : le.x = bus.a.x := onSeg_x_eq hv hle
    omega
  · refine Or.inl ⟨by simp [countEntries], rfl, Or.inl rfl, fun hv => ?_⟩
    have hp : le.x + 100 = bus.a.x := onSeg_x_eq hv h3
    have hq : le.x = bus.a.x := onSeg_x_eq hv hle
    omega
  · exact Or.inr ⟨rfl, rfl⟩
  · refine Or.inl ⟨by simp [countEntries], rfl, Or.inr rfl, fun hv => ?_⟩
    have hp : le.x - 100 = bus.a.x := onSeg_x_eq hv h4
    have hq : le.x = bus.a.x := onSeg_x_eq hv hle
    omega
  · refine Or.inl ⟨by simp [countEntries], rfl, Or.inr rfl, fun hv => ?_⟩
    have hp : le.x + 100 = bus.a.x := onSeg_x_eq hv h5
    have hq : le.x = bus.a.x := onSeg_x_eq hv hle
    omega
  · exact Or.inr ⟨rfl, rfl⟩

theorem freeStartOnBus_h_spec (ls le : Pt) (cur : Seg) (hy : ls.y = le.y) :
    countEntries (freeStartOnBus ls le cur).1 = 1 ∧
    ((0 < ls.x - le.x ∧
        (freeStartOnBus ls le cur).2 = some { cur with a := ⟨ls.x - 100, ls.y + 100⟩ }) ∨
      (¬ 0 < ls.x - le.x ∧
        (freeStartOnBus ls le cur).2 = some { cur with a := ⟨ls.x + 100, ls.y + 100⟩ })) := by
  have hyn : ¬ (0 < ls.y - le.y) := by omega
  unfold freeStartOnBus
  by_cases hx : 0 < ls.x - le.x
  · rw [if_pos hx, if_neg hyn]
    have hne : (⟨ls.x - 100, ls.y + 100⟩ : Pt) ≠ le := by
      intro h
      have := congrArg Pt.y h
      simp only at this
      omega
    rw [if_neg hne]
    exact ⟨by simp [countEntries], Or.inl ⟨hx, rfl⟩⟩
  · rw [if_neg hx, if_neg hyn]
    have hne : (⟨ls.x + 100, ls.y + 100⟩ : Pt) ≠ le := by
      intro h
      have := congrArg Pt.y h
      simp only at this
      omega
    rw [if_neg hne]
    exact ⟨by simp [countEntries], Or.inr ⟨hx, rfl⟩⟩

theorem freeStartOnBus_v_spec (ls le : Pt) (cur : Seg) (hx : ls.x = le.x) :
    countEntries (freeStartOnBus ls le cur).1 = 1 ∧
    ((0 < ls.y - le.y ∧
        (freeStartOnBus ls le cur).2 = some { cur with a := ⟨ls.x + 100, ls.y - 100⟩ }) ∨
      (¬ 0 < ls.y - le.y ∧
        (freeStartOnBus ls le cur).2 = some { cur with a := ⟨ls.x + 100, ls.y + 100⟩ })) := by
  have hxn : ¬ (0 < ls.x - le.x) := by omega
  unfold freeStartOnBus
  rw [if_neg hxn]
  by_cases hyy : 0 < ls.y - le.y
  · rw [if_pos hyy]
    have hne : (⟨ls.x + 100, ls.y - 100⟩ : Pt) ≠ le := by
      intro h
      have := congrArg Pt.x h
      simp only at this
      omega
    rw [if_neg hne]
    exact ⟨by simp [countEntries], Or.inl ⟨hyy, rfl⟩⟩
  · rw [if_neg hyy]
    have hne : (⟨ls.x + 100, ls.y + 100⟩ : Pt) ≠ le := by
      intro h
      have := congrArg Pt.x h
      simp only at this
      omega
    rw [if_neg hne]
    exact ⟨by simp [countEntries], Or.inr ⟨hyy, rfl⟩⟩

theorem freeEndOnBus_h_spec (ls le : Pt) (cur : Seg) (hy : ls.y = le.y) :
    countEntries (freeEndOnBus ls le cur).1 = 1 ∧
    ((0 < ls.x - le.x ∧
        (freeEndOnBus ls le cur).2 = some { cur with b := ⟨le.x + 100, le.y - 100⟩ }) ∨
      (¬ 0 < ls.x - le.x ∧
        (freeEndOnBus ls le cur).2 = some { cur with b := ⟨le.x - 100, le.y - 100⟩ })) := by
  have hyn : ¬ (0 < ls.y - le.y) := by omega
  unfold freeEndOnBus
  by_cases hx : 0 < ls.x - le.x
  · rw [if_pos hx, if_neg hyn]
    have hne : (⟨le.x + 100, le.y - 100⟩ : Pt) ≠ ls := by
      intro h
      have := congrArg Pt.y h
      simp only at this
      omega
    rw [if_neg hne]
    exact ⟨by simp [countEntries], Or.inl ⟨hx, rfl⟩⟩
  · rw [if_neg hx, if_neg hyn]
    have hne : (⟨le.x - 100, le.y - 100⟩ : Pt) ≠ ls := by
      intro h
      have := congrArg Pt.y h
      simp only at this
      omega
    rw [if_neg hne]
    exact ⟨by simp [countEntries], Or.inr ⟨hx, rfl⟩⟩

theorem freeEndOnBus_v_spec (ls le : Pt) (cur : Seg) (hx : ls.x = le.x) :
    countEntries (freeEndOnBus ls le cur).1 = 1 ∧
    ((0 < ls.y - le.y ∧
        (freeEndOnBus ls le cur).2 = some { cur with b := ⟨le.x - 100, le.y + 100⟩ }) ∨
      (¬ 0 < ls.y - le.y ∧
        (freeEndOnBus ls le cur).2 = some { cur with b := ⟨le.x - 100, le.y - 100⟩ })) := by
  have hxn : ¬ (0 < ls.x - le.x) := by omega
  unfold freeEndOnBus
  rw [if_neg hxn]
  by_cases hyy : 0 < ls.y - le.y
  · rw [if_pos hyy]
    have hne : (⟨le.x - 100, le.y + 100⟩ : Pt) ≠ ls := by
      intro h
      have := congrArg Pt.x h
      simp only at this
      omega
    rw [if_neg hne]
    exact ⟨by simp [countEntries], Or.inl ⟨hyy, rfl⟩⟩
  · rw [if_neg hyy]
    have hne : (⟨le.x - 100, le.y - 100⟩ : Pt) ≠ ls := by
      intro h
      have := congrArg Pt.x h
      simp only at this
      omega
    rw [if_neg hne]
    exact ⟨by simp [countEntries], Or.inr ⟨hyy, rfl⟩⟩

theorem busEntry_caseA_start (bus wire : Seg) (hay : wire.a.y = wire.b.y)
    (hbv : bus.a.x = bus.b.x) (hxne : wire.a.x ≠ wire.b.x)
    (htouch : onSeg wire.a bus = true) :
    countEntries (processBusWire bus wire).1 = 1 ∧
    ∃ q : Pt, (processBusWire bus wire).2 = some ⟨q, wire.b⟩ ∧
      q ≠ wire.a ∧
      (bus.a.x = bus.b.x → q.x ≠ bus.a.x) ∧
      (bus.a.y = bus.b.y → q.y ≠ bus.a.y) := by
  have haxb : wire.a.x = bus.a.x := onSeg_x_eq hbv htouch
  have hbOff : onSeg wire.b bus = false :=
    onSeg_false_of_x_ne hbv (by omega)
  rcases hwStartOnBus_spec bus wire.a wire.b hbv htouch with
    ⟨hc1, hy1, hx1, hyF⟩ | ⟨hm1, hp1⟩
  · -- probe succeeded: start moved sideways off the bus line
    have hso : onSeg (hwStartOnBus bus wire.a wire.b).2 bus = false :=
      onSeg_false_of_x_ne hbv (by rcases hx1 with h | h <;> omega)
    have hmain : processBusWire bus wire =
        ((hwStartOnBus bus wire.a wire.b).1,
          some ⟨(hwStartOnBus bus wire.a wire.b).2, wire.b⟩) := by
      simp only [processBusWire, busHV, busVH, hay, hbv, htouch, hbOff, hso, hxne,
        and_self, if_true, ite_true, ite_false, Bool.false_eq_true, if_false,
        ne_eq, false_and, and_false, List.append_nil, List.nil_append]
    rw [hmain]
    refine ⟨hc1, (hwStartOnBus bus wire.a wire.b).2, rfl, ?_, ?_, ?_⟩
    · intro h
      have := congrArg Pt.x h
      rcases hx1 with hx | hx <;> omega
    · intro _
      rcases hx1 with hx | hx <;> omega
    · intro hh
      exact (hyF hh).elim
  · -- both probes failed: marker, then the free-angle block fires
    rcases freeStartOnBus_h_spec wire.a wire.b ⟨wire.a, wire.b⟩ hay with
      ⟨hcf, hdisj⟩
    rcases hdisj with ⟨hxp, hres⟩ | ⟨hxp, hres⟩ <;>
    · have hmain : processBusWire bus wire =
          ((hwStartOnBus bus wire.a wire.b).1 ++
              (freeStartOnBus wire.a wire.b ⟨wire.a, wire.b⟩).1,
            (freeStartOnBus wire.a wire.b ⟨wire.a, wire.b⟩).2) := by
        simp only [processBusWire, busHV, busVH, hay, hbv, htouch, hbOff, hxne, hp1,
          and_self, if_true, ite_true, ite_false, Bool.false_eq_true, if_false,
          ne_eq, false_and, and_false, List.append_nil, List.nil_append, hres]
      rw [hmain, hres]
      refine ⟨?_, _, rfl, ?_, ?_, ?_⟩
      · rw [countEntries_append, hm1, hcf]
        simp [countEntries]
      · intro h
        have := congrArg Pt.y h
        simp only at this
        omega
      · intro _
        simp only
        omega
      · intro hh
        have hq : wire.a.y = bus.a.y := onSeg_y_eq hh htouch
        simp only
        omega

theorem busEntry_caseA_end (bus wire : Seg) (hay : wire.a.y = wire.b.y)
    (hbv : bus.a.x = bus.b.x) (hxne : wire.a.x ≠ wire.b.x)
    (htouch : onSeg wire.b bus = true) :
    countEntries (processBusWire bus wire).1 = 1 ∧
    ∃ q : Pt, (processBusWire bus wire).2 = some ⟨wire.a, q⟩ ∧
      q ≠ wire.b ∧
      (bus.a.x = bus.b.x → q.x ≠ bus.a.x) ∧
      (bus.a.y = bus.b.y → q.y ≠ bus.a.y) := by
  have hbxb : wire.b.x = bus.a.x := onSeg_x_eq hbv htouch
  have haOff : onSeg wire.a bus = false :=
    onSeg_false_of_x_ne hbv (by omega)
  rcases hwEndOnBus_spec bus wire.a wire.b hbv htouch with
    ⟨hc1, hy1, hx1, hyF⟩ | ⟨hm1, hp1⟩
  · have hso : onSeg (hwEndOnBus bus wire.a wire.b).2 bus = false :=
      onSeg_false_of_x_ne hbv (by rcases hx1 with h | h <;> omega)
    have hmain : processBusWire bus wire =
        ((hwEndOnBus bus wire.a wire.b).1,
          some ⟨wire.a, (hwEndOnBus bus wire.a wire.b).2⟩) := by
      simp only [processBusWire, busHV, busVH, hay, hbv, htouch, haOff, hso, hxne,
        and_self, if_true, ite_true, ite_false, Bool.false_eq_true, if_false,
        ne_eq, false_and, and_false, List.append_nil, List.nil_append]
    rw [hmain]
    refine ⟨hc1, (hwEndOnBus bus wire.a wire.b).2, rfl, ?_, ?_, ?_⟩
    · intro h
      have := congrArg Pt.x h
      rcases hx1 with hx | hx <;> omega
    · intro _
      rcases hx1 with hx | hx <;> omega
    · intro hh
      exact (hyF hh).elim
  · rcases freeEndOnBus_h_spec wire.a wire.b ⟨wire.a, wire.b⟩ hay with
      ⟨hcf, hdisj⟩
    rcases hdisj with ⟨hxp, hres⟩ | ⟨hxp, hres⟩ <;>
    · have hmain : processBusWire bus wire =
          ((hwEndOnBus bus wire.a wire.b).1 ++
              (freeEndOnBus wire.a wire.b ⟨wire.a, wire.b⟩).1,
            (freeEndOnBus wire.a wire.b ⟨wire.a, wire.b⟩).2) := by
        simp only [processBusWire, busHV, busVH, hay, hbv, htouch, haOff, hxne, hp1,
          and_self, if_true, ite_true, ite_false, Bool.false_eq_true, if_false,
          ne_eq, false_and, and_false, List.append_nil, List.nil_append, hres]
      rw [hmain, hres]
      refine ⟨?_, _, rfl, ?_, ?_, ?_⟩
      · rw [countEntries_append, hm1, hcf]
        simp [countEntries]
      · intro h
        have := congrArg Pt.y h
        simp only at this
        omega
      · intro _
        simp only
        omega
      · intro hh
        have hq : wire.b.y = bus.a.y := onSeg_y_eq hh htouch
        simp only
        omega

theorem busEntry_caseB_start (bus wire : Seg) (hax : wire.a.x = wire.b.x)
    (hbh : bus.a.y = bus.b.y) (hyne : wire.a.y ≠ wire.b.y)
    (htouch : onSeg wire.a bus = true) :
    countEntries (processBusWire bus wire).1 = 1 ∧
    ∃ q : Pt, (processBusWire bus wire).2 = some ⟨q, wire.b⟩ ∧
      q ≠ wire.a ∧
      (bus.a.x = bus.b.x → q.x ≠ bus.a.x) ∧
      (bus.a.y = bus.b.y → q.y ≠ bus.a.y) := by
  have hayb : wire.a.y = bus.a.y := onSeg_y_eq hbh htouch
  have hbOff : onSeg wire.b bus = false :=
    onSeg_false_of_y_ne hbh (by omega)
  rcases vwStartOnBus_spec bus wire.a wire.b hbh htouch with
    ⟨hc1, hx1, hy1, hxF⟩ | ⟨hm1, hp1⟩
  · have hso : onSeg (vwStartOnBus bus wire.a wire.b).2 bus = false :=
      onSeg_false_of_y_ne hbh (by rcases hy1 with h | h <;> omega)
    have hmain : processBusWire bus wire =
        ((vwStartOnBus bus wire.a wire.b).1,
          some ⟨(vwStartOnBus bus wire.a wire.b).2, wire.b⟩) := by
      simp only [processBusWire, busHV, busVH, hax, hbh, htouch, hbOff, hso, hyne,
        and_self, if_true, ite_true, ite_false, Bool.false_eq_true, if_false,
        ne_eq, false_and, and_false, List.append_nil, List.nil_append]
    rw [hmain]
    refine ⟨hc1, (vwStartOnBus bus wire.a wire.b).2, rfl, ?_, ?_, ?_⟩
    · intro h
      have := congrArg Pt.y h
      rcases hy1 with hy | hy <;> omega
    · intro hv
      exact (hxF hv).elim
    · intro _
      rcases hy1 with hy | hy <;> omega
  · rcases freeStartOnBus_v_spec wire.a wire.b ⟨wire.a, wire.b⟩ hax with
      ⟨hcf, hdisj⟩
    rcases hdisj with ⟨hxp, hres⟩ | ⟨hxp, hres⟩ <;>
    · have hmain : processBusWire bus wire =
          ((vwStartOnBus bus wire.a wire.b).1 ++
              (freeStartOnBus wire.a wire.b ⟨wire.a, wire.b⟩).1,
            (freeStartOnBus wire.a wire.b ⟨wire.a, wire.b⟩).2) := by
        simp only [processBusWire, busHV, busVH, hax, hbh, htouch, hbOff, hyne, hp1,
          and_self, if_true, ite_true, ite_false, Bool.false_eq_true, if_false,
          ne_eq, false_and, and_false, List.append_nil, List.nil_append, hres]
      rw [hmain, hres]
      refine ⟨?_, _, rfl, ?_, ?_, ?_⟩
      · rw [countEntries_append, hm1, hcf]
        simp [countEntries]
      · intro h
        have := congrArg Pt.x h
        simp only at this
        omega
      · intro hv
        have hq : wire.a.x = bus.a.x := onSeg_x_eq hv htouch
        simp only
        omega
      · intro _
        simp only
        omega

theorem busEntry_caseB_end (bus wire : Seg) (hax : wire.a.x = wire.b.x)
    (hbh : bus.a.y = bus.b.y) (hyne : wire.a.y ≠ wire.b.y)
    (htouch : onSeg wire.b bus = true) :
    countEntries (processBusWire bus wire).1 = 1 ∧
    ∃ q : Pt, (processBusWire bus wire).2 = some ⟨wire.a, q⟩ ∧
      q ≠ wire.b ∧
      (bus.a.x = bus.b.x → q.x ≠ bus.a.x) ∧
      (bus.a.y = bus.b.y → q.y ≠ bus.a.y) := by
  have hbyb : wire.b.y = bus.a.y := onSeg_y_eq hbh htouch
  have haOff : onSeg wire.a bus = false :=
    onSeg_false_of_y_ne hbh (by omega)
  rcases vwEndOnBus_spec bus wire.a wire.b hbh htouch with
    ⟨hc1, hx1, hy1, hxF⟩ | ⟨hm1, hp1⟩
  · have hso : onSeg (vwEndOnBus bus wire.a wire.b).2 bus = false :=
      onSeg_false_of_y_ne hbh (by rcases hy1 with h | h <;> omega)
    have hmain : processBusWire bus wire =
        ((vwEndOnBus bus wire.a wire.b).1,
          some ⟨wire.a, (vwEndOnBus bus wire.a wire.b).2⟩) := by
      simp only [processBusWire, busHV, busVH, hax, hbh, htouch, haOff, hso, hyne,
        and_self, if_true, ite_true, ite_false, Bool.false_eq_true, if_false,
        ne_eq, false_and, and_false, List.append_nil, List.nil_append]
    rw [hmain]
    refine ⟨hc1, (vwEndOnBus bus wire.a wire.b).2, rfl, ?_, ?_, ?_⟩
    · intro h
      have := congrArg Pt.y h
      rcases hy1 with hy | hy <;> omega
    · intro hv
      exact (hxF hv).elim
    · intro _
      rcases hy1 with hy | hy <;> omega
  · rcases freeEndOnBus_v_spec wire.a wire.b ⟨wire.a, wire.b⟩ hax with
      ⟨hcf, hdisj⟩
    rcases hdisj with ⟨hxp, hres⟩ | ⟨hxp, hres⟩ <;>
    · have hmain : processBusWire bus wire =
          ((vwEndOnBus bus wire.a wire.b).1 ++
              (freeEndOnBus wire.a wire.b ⟨wire.a, wire.b⟩).1,
            (freeEndOnBus wire.a wire.b ⟨wire.a, wire.b⟩).2) := by
        simp only [processBusWire, busHV, busVH, hax, hbh, htouch, haOff, hyne, hp1,
          and_self, if_true, ite_true, ite_false, Bool.false_eq_true, if_false,
          ne_eq, false_and, and_false, List.append_nil, List.nil_append, hres]
      rw [hmain, hres]
      refine ⟨?_, _, rfl, ?_, ?_, ?_⟩
      · rw [countEntries_append, hm1, hcf]
        simp [countEntries]
      · intro h
        have := congrArg Pt.x h
        simp only at this
        omega
      · intro hv
        have hq : wire.b.x = bus.a.x := onSeg_x_eq hv htouch
        simp only
        omega
      · intro _
        simp only
        omega

/-- C3: for a nondegenerate orthogonal wire perpendicular to a bus
segment, whenever one of the wire's endpoints lies exactly on the bus
(covering the eight canonical orientations: horizontal or vertical
wire, either end touching, either departure side), processing the
(bus, wire) pair appends exactly one bus-entry connector, leaves the
other endpoint unchanged, and moves the touching endpoint to a new
point that no longer coincides with the bus line. -/
theorem addBusEntries_orthogonal (bus wire : Seg)
    (hperp : (wire.a.y = wire.b.y ∧ bus.a.x = bus.b.x ∧ wire.a.x ≠ wire.b.x) ∨
      (wire.a.x = wire.b.x ∧ bus.a.y = bus.b.y ∧ wire.a.y ≠ wire.b.y)) :
    (onSeg wire.a bus = true →
      countEntries (processBusWire bus wire).1 = 1 ∧
      ∃ q : Pt, (processBusWire bus wire).2 = some ⟨q, wire.b⟩ ∧
        q ≠ wire.a ∧
        (bus.a.x = bus.b.x → q.x ≠ bus.a.x) ∧
        (bus.a.y = bus.b.y → q.y ≠ bus.a.y)) ∧
    (onSeg wire.b bus = true →
      countEntries (processBusWire bus wire).1 = 1 ∧
      ∃ q : Pt, (processBusWire bus wire).2 = some ⟨wire.a, q⟩ ∧
        q ≠ wire.b ∧
        (bus.a.x = bus.b.x → q.x ≠ bus.a.x) ∧
        (bus.a.y = bus.b.y → q.y ≠ bus.a.y)) := by
  rcases hperp with ⟨hay, hbv, hxne⟩ | ⟨hax, hbh, hyne⟩
  · exact ⟨busEntry_caseA_start bus wire hay hbv hxne,
      busEntry_caseA_end bus wire hay hbv hxne⟩
  · exact ⟨busEntry_caseB_start bus wire hax hbh hyne,
      busEntry_caseB_end bus wire hax hbh hyne⟩

/-- Witness for C3: a horizontal wire from (0,0) to (300,0) starting on
the vertical bus from (0,-200) to (0,200) receives exactly one bus
entry and its start point leaves the bus line. -/
theorem addBusEntries_orthogonal_witness :
    countEntries (processBusWire ⟨⟨0, -200⟩, ⟨0, 200⟩⟩ ⟨⟨0, 0⟩, ⟨300, 0⟩⟩).1 = 1 ∧
    ∃ q : Pt,
      (processBusWire ⟨⟨0, -200⟩, ⟨0, 200⟩⟩ ⟨⟨0, 0⟩, ⟨300, 0⟩⟩).2 =
          some ⟨q, ⟨300, 0⟩⟩ ∧
        q ≠ (⟨0, 0⟩ : Pt) ∧
        ((0 : Int) = 0 → q.x ≠ 0) ∧
        ((-200 : Int) = 200 → q.y ≠ -200) :=
  (addBusEntries_orthogonal ⟨⟨0, -200⟩, ⟨0, 200⟩⟩ ⟨⟨0, 0⟩, ⟨300, 0⟩⟩
    (Or.inl ⟨rfl, rfl, by decide⟩)).1 (by decide)

theorem natAbs_tdiv_two (z : Int) : (Int.tdiv z 2).natAbs = z.natAbs / 2 := by
  rcases z with n | n
  · rfl
  · show (-(Int.ofNat ((n + 1) / 2))).natAbs = (n + 1) / 2
    rw [Int.natAbs_neg]
    rfl

theorem mulTrialDiv2_far (d : Pt) (t : Nat) (hd : ¬ (d.x = 0 ∧ d.y = 0)) :
    t ≤ 2 * (mulTrialDiv2 d t).x.natAbs + 1 ∨
      t ≤ 2 * (mulTrialDiv2 d t).y.natAbs + 1 := by
  by_cases hx : d.x = 0
  · right
    have hy : d.y ≠ 0 := fun h => hd ⟨hx, h⟩
    have h1 : (mulTrialDiv2 d t).y.natAbs = (d.y.natAbs * t) / 2 := by
      show (Int.tdiv (d.y * (t : Int)) 2).natAbs = (d.y.natAbs * t) / 2
      rw [natAbs_tdiv_two, Int.natAbs_mul, Int.natAbs_ofNat]
    have h2 : t ≤ d.y.natAbs * t :=
      Nat.le_mul_of_pos_left t (Int.natAbs_pos.mpr hy)
    omega
  · left
    have h1 : (mulTrialDiv2 d t).x.natAbs = (d.x.natAbs * t) / 2 := by
      show (Int.tdiv (d.x * (t : Int)) 2).natAbs = (d.x.natAbs * t) / 2
      rw [natAbs_tdiv_two, Int.natAbs_mul, Int.natAbs_ofNat]
    have h2 : t ≤ d.x.natAbs * t :=
      Nat.le_mul_of_pos_left t (Int.natAbs_pos.mpr hx)
    omega

theorem probes_off (seg : Seg) (origPos d : Pt) (hd : ¬ (d.x = 0 ∧ d.y = 0))
    (t : Nat) (ht : searchBound seg origPos ≤ t) :
    onSeg ⟨origPos.x + (mulTrialDiv2 d t).x, origPos.y + (mulTrialDiv2 d t).y⟩ seg
        = false ∧
      onSeg ⟨origPos.x - (mulTrialDiv2 d t).x, origPos.y - (mulTrialDiv2 d t).y⟩ seg
        = false := by
  unfold searchBound at ht
  rcases mulTrialDiv2_far d t hd with hfar | hfar
  · constructor
    · cases hc : onSeg ⟨origPos.x + (mulTrialDiv2 d t).x,
          origPos.y + (mulTrialDiv2 d t).y⟩ seg with
      | false => rfl
      | true =>
        rw [onSeg_eq_true_iff] at hc
        have h1 : min seg.a.x seg.b.x ≤ origPos.x + (mulTrialDiv2 d t).x := hc.2.1
        have h2 : origPos.x + (mulTrialDiv2 d t).x ≤ max seg.a.x seg.b.x := hc.2.2.1
        omega
    · cases hc : onSeg ⟨origPos.x - (mulTrialDiv2 d t).x,
          origPos.y - (mulTrialDiv2 d t).y⟩ seg with
      | false => rfl
      | true =>
        rw [onSeg_eq_true_iff] at hc
        have h1 : min seg.a.x seg.b.x ≤ origPos.x - (mulTrialDiv2 d t).x := hc.2.1
        have h2 : origPos.x - (mulTrialDiv2 d t).x ≤ max seg.a.x seg.b.x := hc.2.2.1
        omega
  · constructor
    · cases hc : onSeg ⟨origPos.x + (mulTrialDiv2 d t).x,
          origPos.y + (mulTrialDiv2 d t).y⟩ seg with
      | false => rfl
      | true =>
        rw [onSeg_eq_true_iff] at hc
        have h1 : min seg.a.y seg.b.y ≤ origPos.y + (mulTrialDiv2 d t).y := hc.2.2.2.1
        have h2 : origPos.y + (mulTrialDiv2 d t).y ≤ max seg.a.y seg.b.y := hc.2.2.2.2
        omega
    · cases hc : onSeg ⟨origPos.x - (mulTrialDiv2 d t).x,
          origPos.y - (mulTrialDiv2 d t).y⟩ seg with
      | false => rfl
      | true =>
        rw [onSeg_eq_true_iff] at hc
        have h1 : min seg.a.y seg.b.y ≤ origPos.y - (mulTrialDiv2 d t).y := hc.2.2.2.1
        have h2 : origPos.y - (mulTrialDiv2 d t).y ≤ max seg.a.y seg.b.y := hc.2.2.2.2
        omega

theorem searchStep_inv (seg : Seg) (origPos d : Pt) (st : SearchState) :
    searchInv seg (searchStep seg origPos d st) := by
  unfold searchStep searchInv
  by_cases hp : st.trial % 2 = 1
  · rw [if_pos hp]
    exact ⟨fun h => h, fun h => Or.inl h⟩
  · rw [if_neg hp]
    exact ⟨fun h => h, fun h => Or.inr h⟩

theorem searchRun_inv (inters : List Pt) (seg : Seg) (origPos d : Pt)
    (n : Nat) (st : SearchState) (h : searchInv seg st) :
    searchInv seg (searchRun inters seg origPos d n st) := by
  induction n generalizing st with
  | zero => exact h
  | succ n ih =>
    unfold searchRun
    by_cases hc : searchContinues inters st = true
    · rw [if_pos hc]
      exact ih _ (searchStep_inv seg origPos d st)
    · rw [if_neg hc]
      exact h

theorem searchRun_absorb (inters : List Pt) (seg : Seg) (origPos d : Pt)
    (n : Nat) (st : SearchState) (h : searchContinues inters st = false) :
    searchRun inters seg origPos d n st = st := by
  cases n with
  | zero => rfl
  | succ n =>
    unfold searchRun
    rw [if_neg (by simp [h])]

theorem searchRun_succ (inters : List Pt) (seg : Seg) (origPos d : Pt)
    (n : Nat) (st : SearchState) :
    searchRun inters seg origPos d (n + 1) st =
      if searchContinues inters st then
        searchRun inters seg origPos d n (searchStep seg origPos d st)
      else st := rfl

theorem searchRun_add (inters : List Pt) (seg : Seg) (origPos d : Pt)
    (m n : Nat) (st : SearchState) :
    searchRun inters seg origPos d (m + n) st =
      searchRun inters seg origPos d n (searchRun inters seg origPos d m st) := by
  induction m generalizing st with
  | zero =>
    rw [Nat.zero_add]
    rfl
  | succ m ih =>
    have h1 : m + 1 + n = (m + n) + 1 := by omega
    rw [h1, searchRun_succ, searchRun_succ]
    by_cases hc : searchContinues inters st = true
    · rw [if_pos hc, if_pos hc]
      exact ih (searchStep seg origPos d st)
    · rw [if_neg hc, if_neg hc]
      exact (searchRun_absorb inters seg origPos d n st (by
        cases hcc : searchContinues inters st with
        | false => rfl
        | true => exact absurd hcc hc)).symm

theorem searchRun_exit_or_trial (inters : List Pt) (seg : Seg) (origPos d : Pt)
    (n : Nat) (st : SearchState) :
    searchContinues inters (searchRun inters seg origPos d n st) = false ∨
      (searchRun inters seg origPos d n st).trial = st.trial + n := by
  induction n generalizing st with
  | zero => exact Or.inr rfl
  | succ n ih =>
    unfold searchRun
    by_cases hc : searchContinues inters st = true
    · rw [if_pos hc]
      rcases ih (searchStep seg origPos d st) with h | h
      · exact Or.inl h
      · refine Or.inr ?_
        rw [h]
        have : (searchStep seg origPos d st).trial = st.trial + 1 := by
          unfold searchStep
          by_cases hp : st.trial % 2 = 1
          · rw [if_pos hp]
          · rw [if_neg hp]
        omega
    · rw [if_neg hc]
      left
      cases hcc : searchContinues inters st with
      | false => rfl
      | true => exact absurd hcc hc

theorem pt_ext {p q : Pt} (hx : p.x = q.x) (hy : p.y = q.y) : p = q := by
  cases p
  cases q
  simp only at hx hy
  rw [hx, hy]

theorem searchRun_two_step_exit (inters : List Pt) (seg : Seg) (origPos d : Pt)
    (hd : ¬ (d.x = 0 ∧ d.y = 0)) (st : SearchState)
    (ht : searchBound seg origPos ≤ st.trial) :
    searchContinues inters (searchRun inters seg origPos d 2 st) = false := by
  by_cases hc : searchContinues inters st = true
  · rw [searchRun_succ, if_pos hc]
    have hofft := probes_off seg origPos d hd st.trial ht
    have hofft1 := probes_off seg origPos d hd (st.trial + 1) (by omega)
    by_cases hp : st.trial % 2 = 1
    · have hs1 : searchStep seg origPos d st =
          ⟨⟨origPos.x + (mulTrialDiv2 d st.trial).x,
            origPos.y + (mulTrialDiv2 d st.trial).y⟩,
            false, false, st.checkNegative, st.trial + 1⟩ := by
        unfold searchStep
        rw [if_pos hp, hofft.1]
      rw [hs1]
      by_cases hc1 : searchContinues inters
          (⟨⟨origPos.x + (mulTrialDiv2 d st.trial).x,
            origPos.y + (mulTrialDiv2 d st.trial).y⟩,
            false, false, st.checkNegative, st.trial + 1⟩ : SearchState) = true
      · rw [searchRun_succ, if_pos hc1]
        show searchContinues inters (searchStep seg origPos d _) = false
        unfold searchStep
        rw [if_neg (show ¬ ((st.trial + 1) % 2 = 1) by omega)]
        unfold searchContinues
        simp [hofft1.2]
      · rw [searchRun_succ, if_neg hc1]
        cases hcc : searchContinues inters
            (⟨⟨origPos.x + (mulTrialDiv2 d st.trial).x,
              origPos.y + (mulTrialDiv2 d st.trial).y⟩,
              false, false, st.checkNegative, st.trial + 1⟩ : SearchState) with
        | false => rfl
        | true => exact absurd hcc hc1
    · have hs1 : searchStep seg origPos d st =
          ⟨⟨origPos.x - (mulTrialDiv2 d st.trial).x,
            origPos.y - (mulTrialDiv2 d st.trial).y⟩,
            false, st.checkPositive, false, st.trial + 1⟩ := by
        unfold searchStep
        rw [if_neg hp, hofft.2]
      rw [hs1]
      by_cases hc1 : searchContinues inters
          (⟨⟨origPos.x - (mulTrialDiv2 d st.trial).x,
            origPos.y - (mulTrialDiv2 d st.trial).y⟩,
            false, st.checkPositive, false, st.trial + 1⟩ : SearchState) = true
      · rw [searchRun_succ, if_pos hc1]
        show searchContinues inters (searchStep seg origPos d _) = false
        unfold searchStep
        rw [if_pos (show (st.trial + 1) % 2 = 1 by omega)]
        unfold searchContinues
        simp [hofft1.1]
      · rw [searchRun_succ, if_neg hc1]
        cases hcc : searchContinues inters
            (⟨⟨origPos.x - (mulTrialDiv2 d st.trial).x,
              origPos.y - (mulTrialDiv2 d st.trial).y⟩,
              false, st.checkPositive, false, st.trial + 1⟩ : SearchState) with
        | false => rfl
        | true => exact absurd hcc hc1
  · rw [searchRun_absorb inters seg origPos d 2 st (by
      cases hcc : searchContinues inters st with
      | false => rfl
      | true => exact absurd hcc hc)]
    cases hcc : searchContinues inters st with
    | false => rfl
    | true => exact absurd hcc hc

/-- C1 (amended): for a label lying off all segments of its group that
was snapped by `findNearestLinePoint` to a point of a segment of
nonzero length, the displacement search terminates (exhibited by an
explicit fuel at which the loop condition has gone false), and the
resulting label position either lies on the attached segment and off
every cross-group intersection point, or equals the original label
position when the search moved nothing. -/
theorem adjustNetLabels_offlabel_spec (inters : List Pt) (segs : List Seg)
    (labelPos origPos : Pt) (i : Nat) (seg : Seg)
    (_hoff : labelAttached segs labelPos = none)
    (_hfind : findNearestLinePoint labelPos segs = some (origPos, i))
    (hseg : segs.get? i = some seg)
    (hnd : seg.a ≠ seg.b) :
    seg ∈ segs ∧
    ∃ n : Nat,
      searchContinues inters
          (searchRun inters seg origPos (wireDirectionOf seg) n
            (initSearch origPos)) = false ∧
      ((onSeg (adjustedLabelPos inters seg origPos (wireDirectionOf seg)
            labelPos n) seg = true ∧
          onIntersection inters
            (adjustedLabelPos inters seg origPos (wireDirectionOf seg)
              labelPos n) = false) ∨
        adjustedLabelPos inters seg origPos (wireDirectionOf seg) labelPos n
          = labelPos) := by
  have hmem : seg ∈ segs := List.get?_mem hseg
  have hd : ¬ ((wireDirectionOf seg).x = 0 ∧ (wireDirectionOf seg).y = 0) := by
    rintro ⟨h1, h2⟩
    apply hnd
    unfold wireDirectionOf resizeStep at h1 h2
    by_cases hv : (⟨seg.b.x - seg.a.x, seg.b.y - seg.a.y⟩ : Pt) = ⟨0, 0⟩
    · have hx := congrArg Pt.x hv
      have hy := congrArg Pt.y hv
      simp only at hx hy
      exact pt_ext (by omega) (by omega)
    · rw [if_neg hv] at h1 h2
      simp only at h1 h2
      exact pt_ext (by omega) (by omega)
  refine ⟨hmem, searchBound seg origPos + 2, ?_, ?_⟩
  · rcases searchRun_exit_or_trial inters seg origPos (wireDirectionOf seg)
        (searchBound seg origPos) (initSearch origPos) with hex | htr
    · rw [searchRun_add inters seg origPos (wireDirectionOf seg)
        (searchBound seg origPos) 2 (initSearch origPos)]
      rw [searchRun_absorb inters seg origPos (wireDirectionOf seg) 2 _ hex]
      exact hex
    · rw [searchRun_add inters seg origPos (wireDirectionOf seg)
        (searchBound seg origPos) 2 (initSearch origPos)]
      apply searchRun_two_step_exit inters seg origPos (wireDirectionOf seg) hd
      rw [htr]
      simp [initSearch]
  · have hinv := searchRun_inv inters seg origPos (wireDirectionOf seg)
      (searchBound seg origPos + 2) (initSearch origPos)
      (by unfold searchInv initSearch; simp)
    rcases searchRun_exit_or_trial inters seg origPos (wireDirectionOf seg)
        (searchBound seg origPos) (initSearch origPos) with hex | htr
    · have key : searchContinues inters
          (searchRun inters seg origPos (wireDirectionOf seg)
            (searchBound seg origPos + 2) (initSearch origPos)) = false := by
        rw [searchRun_add inters seg origPos (wireDirectionOf seg)
          (searchBound seg origPos) 2 (initSearch origPos)]
        rw [searchRun_absorb inters seg origPos (wireDirectionOf seg) 2 _ hex]
        exact hex
      unfold adjustedLabelPos
      by_cases hm : (searchRun inters seg origPos (wireDirectionOf seg)
          (searchBound seg origPos + 2) (initSearch origPos)).move = true
      · rw [if_pos hm]
        left
        refine ⟨hinv.1 hm, ?_⟩
        have h2 := hinv.2 hm
        unfold searchContinues at key
        cases hoi : onIntersection inters
            (searchRun inters seg origPos (wireDirectionOf seg)
              (searchBound seg origPos + 2) (initSearch origPos)).labelPos with
        | false => rfl
        | true =>
          rw [hm, hoi] at key
          rcases h2 with h | h <;> rw [h] at key <;> simp at key
      · rw [if_neg hm]
        right
        rfl
    · have key : searchContinues inters
          (searchRun inters seg origPos (wireDirectionOf seg)
            (searchBound seg origPos + 2) (initSearch origPos)) = false := by
        rw [searchRun_add inters seg origPos (wireDirectionOf seg)
          (searchBound seg origPos) 2 (initSearch origPos)]
        apply searchRun_two_step_exit inters seg origPos (wireDirectionOf seg) hd
        rw [htr]
        simp [initSearch]
      unfold adjustedLabelPos
      by_cases hm : (searchRun inters seg origPos (wireDirectionOf seg)
          (searchBound seg origPos + 2) (initSearch origPos)).move = true
      · rw [if_pos hm]
        left
        refine ⟨hinv.1 hm, ?_⟩
        have h2 := hinv.2 hm
        unfold searchContinues at key
        cases hoi : onIntersection inters
            (searchRun inters seg origPos (wireDirectionOf seg)
              (searchBound seg origPos + 2) (initSearch origPos)).labelPos with
        | false => rfl
        | true =>
          rw [hm, hoi] at key
          rcases h2 with h | h <;> rw [h] at key <;> simp at key
      · rw [if_neg hm]
        right
        rfl

/-- Witness for C1 (amended): a label at (10,7), off the single segment
from (0,0) to (400,0), snaps to (0,0) and the displacement search
terminates with the stated outcome. -/
theorem adjustNetLabels_offlabel_spec_witness :
    (⟨⟨0, 0⟩, ⟨400, 0⟩⟩ : Seg) ∈ [(⟨⟨0, 0⟩, ⟨400, 0⟩⟩ : Seg)] ∧
    ∃ n : Nat,
      searchContinues []
          (searchRun [] ⟨⟨0, 0⟩, ⟨400, 0⟩⟩ ⟨0, 0⟩
            (wireDirectionOf ⟨⟨0, 0⟩, ⟨400, 0⟩⟩) n (initSearch ⟨0, 0⟩)) = false ∧
      ((onSeg (adjustedLabelPos [] ⟨⟨0, 0⟩, ⟨400, 0⟩⟩ ⟨0, 0⟩
            (wireDirectionOf ⟨⟨0, 0⟩, ⟨400, 0⟩⟩) ⟨10, 7⟩ n) ⟨⟨0, 0⟩, ⟨400, 0⟩⟩ = true ∧
          onIntersection []
            (adjustedLabelPos [] ⟨⟨0, 0⟩, ⟨400, 0⟩⟩ ⟨0, 0⟩
              (wireDirectionOf ⟨⟨0, 0⟩, ⟨400, 0⟩⟩) ⟨10, 7⟩ n) = false) ∨
        adjustedLabelPos [] ⟨⟨0, 0⟩, ⟨400, 0⟩⟩ ⟨0, 0⟩
            (wireDirectionOf ⟨⟨0, 0⟩, ⟨400, 0⟩⟩) ⟨10, 7⟩ n = ⟨10, 7⟩) :=
  adjustNetLabels_offlabel_spec [] [⟨⟨0, 0⟩, ⟨400, 0⟩⟩] ⟨10, 7⟩ ⟨0, 0⟩ 0
    ⟨⟨0, 0⟩, ⟨400, 0⟩⟩ (by decide) (by decide) rfl (by decide)

theorem c1cex_step (st : SearchState)
    (h : st.checkPositive = true ∧ st.checkNegative = true) :
    (searchStep ⟨⟨0, 0⟩, ⟨0, 0⟩⟩ ⟨0, 0⟩ ⟨0, 0⟩ st).labelPos = ⟨0, 0⟩ ∧
    (searchStep ⟨⟨0, 0⟩, ⟨0, 0⟩⟩ ⟨0, 0⟩ ⟨0, 0⟩ st).checkPositive = true ∧
    (searchStep ⟨⟨0, 0⟩, ⟨0, 0⟩⟩ ⟨0, 0⟩ ⟨0, 0⟩ st).checkNegative = true := by
  have hm : mulTrialDiv2 ⟨0, 0⟩ st.trial = ⟨0, 0⟩ := by
    unfold mulTrialDiv2
    simp
  have hc : onSeg (⟨0, 0⟩ : Pt) ⟨⟨0, 0⟩, ⟨0, 0⟩⟩ = true := by decide
  unfold searchStep
  by_cases hp : st.trial % 2 = 1
  · rw [if_pos hp]
    simp [hm, hc, h.2]
  · rw [if_neg hp]
    simp [hm, hc, h.1]

theorem c1cex_continues (st : SearchState)
    (h : st.labelPos = ⟨0, 0⟩ ∧ st.checkPositive = true ∧ st.checkNegative = true) :
    searchContinues [⟨0, 0⟩] st = true := by
  obtain ⟨hlp, hcp, hcn⟩ := h
  simp [searchContinues, onIntersection, hlp, hcp]

theorem c1cex_run (n : Nat) (st : SearchState)
    (h : st.labelPos = ⟨0, 0⟩ ∧ st.checkPositive = true ∧ st.checkNegative = true) :
    (searchRun [⟨0, 0⟩] ⟨⟨0, 0⟩, ⟨0, 0⟩⟩ ⟨0, 0⟩ ⟨0, 0⟩ n st).labelPos = ⟨0, 0⟩ ∧
    (searchRun [⟨0, 0⟩] ⟨⟨0, 0⟩, ⟨0, 0⟩⟩ ⟨0, 0⟩ ⟨0, 0⟩ n st).checkPositive = true ∧
    (searchRun [⟨0, 0⟩] ⟨⟨0, 0⟩, ⟨0, 0⟩⟩ ⟨0, 0⟩ ⟨0, 0⟩ n st).checkNegative = true := by
  induction n generalizing st with
  | zero => exact h
  | succ n ih =>
    rw [searchRun_succ, if_pos (c1cex_continues st h)]
    exact ih _ (by
      have := c1cex_step st ⟨h.2.1, h.2.2⟩
      exact ⟨this.1, this.2.1, this.2.2⟩)

/-- C1 (counterexample): for the group holding one degenerate (single
point) segment at (0,0), a single explicit label at (5,0) lying off the
segment, and (0,0) recorded as a cross-group intersection point, the
snapped origin is (0,0), the resized direction vector is zero, and the
displacement loop never exits: the loop condition stays true for every
iteration count, so the corrector does not terminate as the claim
requires. -/
theorem adjustNetLabels_nonterminating_counterexample :
    labelAttached [⟨⟨0, 0⟩, ⟨0, 0⟩⟩] ⟨5, 0⟩ = none ∧
    findNearestLinePoint ⟨5, 0⟩ [⟨⟨0, 0⟩, ⟨0, 0⟩⟩] = some (⟨0, 0⟩, 0) ∧
    wireDirectionOf ⟨⟨0, 0⟩, ⟨0, 0⟩⟩ = ⟨0, 0⟩ ∧
    ¬ ∃ n : Nat,
      searchContinues [⟨0, 0⟩]
        (searchRun [⟨0, 0⟩] ⟨⟨0, 0⟩, ⟨0, 0⟩⟩ ⟨0, 0⟩ ⟨0, 0⟩ n
          (initSearch ⟨0, 0⟩)) = false := by
  refine ⟨by decide, by decide, by decide, ?_⟩
  rintro ⟨n, hn⟩
  have h := c1cex_run n (initSearch ⟨0, 0⟩) ⟨rfl, rfl, rfl⟩
  have hc := c1cex_continues _ h
  rw [hn] at hc
  cases hc
